import Mathlib

/-!
Verification of the whosthere discovery engine against its specification.

The Go source is shallowly embedded: Go structs become Lean structures,
Go maps become association lists (`List (key × value)`) whose iteration
order fixes one of the orders a Go map may present (all theorems proved
about map contents are order-independent, i.e. stated via key lookup or
membership), `time.Time` becomes a `Nat` tick count whose zero value is
`0` (`IsZero ↔ = 0`), `time.Duration` becomes `Int` nanoseconds, and
`net.IP` becomes an explicit four-octet IPv4 value (an `Option` where the
Go value may be nil).  Mutating methods on pointer receivers become pure
functions returning the updated value; channel sends become list appends
or `Option` results.
-/

namespace WhosThere

/-- First-position lookup in an association list, the semantics of a read
from a Go `map` modelled as a list of key/value pairs. -/
def lookupKey {α : Type} (k : String) : List (String × α) → Option α
  | [] => none
  | kv :: rest => if kv.1 = k then some kv.2 else lookupKey k rest

/-- Pointwise update of every binding of key `k`, the semantics of a Go
`map` write on an existing key. -/
def updateKey {α : Type} (k : String) (v : α) (m : List (String × α)) : List (String × α) :=
  m.map (fun kv => if kv.1 = k then (k, v) else kv)

/-- An IPv4 address as four octets (each `< 256` for well-formed values),
modelling a 4-byte `net.IP`. -/
structure IPv4 where
  o1 : Nat
  o2 : Nat
  o3 : Nat
  o4 : Nat
deriving Repr, DecidableEq

/-- Device, from `pkg/discovery/device.go`.  Fields as in the Go struct;
the `sync.RWMutex` is dropped (the embedding is sequential), Go maps are
association lists, `time.Time` is a `Nat` with `0` as the zero value. -/
structure Device where
  ip : Option IPv4
  mac : String
  displayName : String
  manufacturer : String
  sources : List String
  firstSeen : Nat
  lastSeen : Nat
  extraData : List (String × String)
  openPorts : List (String × List Int)
  lastPortScan : Nat
deriving Repr, DecidableEq

/-- NewDevice from device.go: empty maps, firstSeen = lastSeen = now. -/
def NewDevice (now : Nat) (ip : Option IPv4) : Device :=
  { ip := ip
    mac := ""
    displayName := ""
    manufacturer := ""
    sources := []
    firstSeen := now
    lastSeen := now
    extraData := []
    openPorts := []
    lastPortScan := 0 }

/-- The `for src := range other.sources { d.sources[src] = struct{}{} }`
loop of `Device.Merge`: set insertion of every source of `other`. -/
def mergeSources (ds os : List String) : List String :=
  os.foldl (fun acc src => if src ∈ acc then acc else acc ++ [src]) ds

/-- The extraData loop of `Device.Merge`: a key of `other` is added only
when missing in the target (`if _, ok := d.extraData[k]; !ok`). -/
def mergeExtraData (ds os : List (String × String)) : List (String × String) :=
  os.foldl (fun acc kv => if (lookupKey kv.1 acc).isSome then acc else acc ++ [kv]) ds

/-- The inner port loop of `Device.Merge`: each port of `other` is
appended unless already present (the Go code tracks a `portSet` that
starts from the target's list and also absorbs each appended port). -/
def addMissingPorts (dl ports : List Int) : List Int :=
  ports.foldl (fun cur p => if p ∈ cur then cur else cur ++ [p]) dl

/-- The openPorts loop of `Device.Merge`: a protocol missing from the
target is copied verbatim; a present protocol gets the missing ports of
`other` appended. -/
def mergeOpenPorts (dp op : List (String × List Int)) : List (String × List Int) :=
  op.foldl
    (fun acc pr =>
      match lookupKey pr.1 acc with
      | none => acc ++ [(pr.1, pr.2)]
      | some dl => updateKey pr.1 (addMissingPorts dl pr.2) acc)
    dp

/-- Device.Merge from device.go (the nil-pointer and self-merge early
returns are pointer-level and outside a value embedding; `nil` maps and
their re-allocation coincide with the empty association list). -/
def Device.merge (d other : Device) : Device :=
  { ip := if d.ip = none ∧ other.ip ≠ none then other.ip else d.ip
    mac := if d.mac = "" ∧ other.mac ≠ "" then other.mac else d.mac
    displayName :=
      if d.displayName = "" ∧ other.displayName ≠ "" then other.displayName else d.displayName
    manufacturer :=
      if d.manufacturer = "" ∧ other.manufacturer ≠ "" then other.manufacturer else d.manufacturer
    sources := mergeSources d.sources other.sources
    firstSeen :=
      if d.firstSeen = 0 ∨ (other.firstSeen ≠ 0 ∧ other.firstSeen < d.firstSeen) then
        other.firstSeen
      else d.firstSeen
    lastSeen := if other.lastSeen > d.lastSeen then other.lastSeen else d.lastSeen
    extraData := mergeExtraData d.extraData other.extraData
    openPorts := mergeOpenPorts d.openPorts other.openPorts
    lastPortScan := if other.lastPortScan > d.lastPortScan then other.lastPortScan else d.lastPortScan }

theorem lookupKey_append {α : Type} (k : String) (l₁ l₂ : List (String × α)) :
    lookupKey k (l₁ ++ l₂) = ((lookupKey k l₁).rec (lookupKey k l₂) (fun v => some v) : Option α) := by
  induction l₁ with
  | nil => simp [lookupKey]
  | cons kv rest ih =>
      by_cases h : kv.1 = k <;> simp [lookupKey, h, ih]

theorem mem_mergeSources (s : String) (ds os : List String) :
    s ∈ mergeSources ds os ↔ s ∈ ds ∨ s ∈ os := by
  induction os generalizing ds with
  | nil => simp [mergeSources]
  | cons o rest ih =>
      show s ∈ mergeSources (if o ∈ ds then ds else ds ++ [o]) rest ↔ _
      by_cases h : o ∈ ds
      · rw [if_pos h, ih]
        constructor
        · rintro (hs | hs)
          · exact Or.inl hs
          · exact Or.inr (List.mem_cons_of_mem _ hs)
        · rintro (hs | hs)
          · exact Or.inl hs
          · rcases List.mem_cons.mp hs with rfl | hs
            · exact Or.inl h
            · exact Or.inr hs
      · rw [if_neg h, ih]
        simp only [List.mem_append, List.mem_singleton, List.mem_cons]
        tauto

theorem nodup_mergeSources (ds os : List String) (hd : ds.Nodup) :
    (mergeSources ds os).Nodup := by
  induction os generalizing ds with
  | nil => exact hd
  | cons o rest ih =>
      show (mergeSources (if o ∈ ds then ds else ds ++ [o]) rest).Nodup
      by_cases h : o ∈ ds
      · rw [if_pos h]; exact ih ds hd
      · rw [if_neg h]
        refine ih _ ?_
        simpa [List.nodup_append] using ⟨hd, h⟩

theorem lookupKey_mergeExtraData (k : String) (ds os : List (String × String)) :
    lookupKey k (mergeExtraData ds os) =
      match lookupKey k ds with
      | some v => some v
      | none => lookupKey k os := by
  induction os generalizing ds with
  | nil => cases h : lookupKey k ds <;> simp [mergeExtraData, lookupKey, h]
  | cons kv rest ih =>
      show lookupKey k (mergeExtraData (if (lookupKey kv.1 ds).isSome then ds else ds ++ [kv]) rest) = _
      by_cases hk : (lookupKey kv.1 ds).isSome
      · rw [if_pos hk, ih]
        cases hdk : lookupKey k ds with
        | some v => simp
        | none =>
            simp only []
            by_cases hkv : kv.1 = k
            · subst hkv
              rw [hdk] at hk
              simp at hk
            · simp [lookupKey, hkv]
      · rw [if_neg hk, ih]
        rw [lookupKey_append]
        by_cases hkv : kv.1 = k
        · subst hkv
          cases hdk : lookupKey kv.1 ds with
          | some v => simp [hdk] at hk
          | none => simp [lookupKey]
        · cases hdk : lookupKey k ds with
          | some v => simp
          | none => simp [lookupKey, hkv]

/-- C1 Scenario A target device D₁ at 10.0.0.2. -/
def scenarioAD1 : Device :=
  { ip := some ⟨10, 0, 0, 2⟩
    mac := ""
    displayName := "host"
    manufacturer := ""
    sources := ["a"]
    firstSeen := 100
    lastSeen := 200
    extraData := [("k1", "v1")]
    openPorts := []
    lastPortScan := 0 }

/-- C1 Scenario A operand device D₂ at 10.0.0.2. -/
def scenarioAD2 : Device :=
  { ip := some ⟨10, 0, 0, 2⟩
    mac := "aa:bb"
    displayName := ""
    manufacturer := ""
    sources := ["b"]
    firstSeen := 50
    lastSeen := 300
    extraData := [("k2", "v2")]
    openPorts := []
    lastPortScan := 0 }

/-- C1: `Device.Merge` fills mac, displayName and manufacturer only when
the target's field is empty (first observation wins), unions the
sources, merges extraData key-by-key filling only missing keys, sets
firstSeen to the minimum of the non-zero values and lastSeen to the
maximum; and on the literal Scenario A inputs it yields mac "aa:bb",
displayName "host", sources {"a","b"}, firstSeen 50, lastSeen 300,
extraData {k1 ↦ v1, k2 ↦ v2}. -/
theorem merge_field_rules :
    (∀ d other : Device,
      (d.merge other).mac = (if d.mac = "" then other.mac else d.mac) ∧
      (d.merge other).displayName =
        (if d.displayName = "" then other.displayName else d.displayName) ∧
      (d.merge other).manufacturer =
        (if d.manufacturer = "" then other.manufacturer else d.manufacturer) ∧
      (∀ s, s ∈ (d.merge other).sources ↔ s ∈ d.sources ∨ s ∈ other.sources) ∧
      (∀ k, lookupKey k (d.merge other).extraData =
        match lookupKey k d.extraData with
        | some v => some v
        | none => lookupKey k other.extraData) ∧
      (d.merge other).firstSeen =
        (if d.firstSeen = 0 then other.firstSeen
         else if other.firstSeen = 0 then d.firstSeen
         else min d.firstSeen other.firstSeen) ∧
      (d.merge other).lastSeen = max d.lastSeen other.lastSeen) ∧
    ((scenarioAD1.merge scenarioAD2).mac = "aa:bb" ∧
     (scenarioAD1.merge scenarioAD2).displayName = "host" ∧
     (∀ s, s ∈ (scenarioAD1.merge scenarioAD2).sources ↔ s = "a" ∨ s = "b") ∧
     (scenarioAD1.merge scenarioAD2).firstSeen = 50 ∧
     (scenarioAD1.merge scenarioAD2).lastSeen = 300 ∧
     lookupKey "k1" (scenarioAD1.merge scenarioAD2).extraData = some "v1" ∧
     lookupKey "k2" (scenarioAD1.merge scenarioAD2).extraData = some "v2" ∧
     (scenarioAD1.merge scenarioAD2).extraData.map Prod.fst = ["k1", "k2"]) := by
  constructor
  · intro d other
    refine ⟨?_, ?_, ?_, ?_, ?_, ?_, ?_⟩
    · show (if d.mac = "" ∧ other.mac ≠ "" then other.mac else d.mac) = _
      split_ifs with h₁ h₂ <;> simp_all
    · show (if d.displayName = "" ∧ other.displayName ≠ "" then other.displayName else d.displayName) = _
      split_ifs with h₁ h₂ <;> simp_all
    · show (if d.manufacturer = "" ∧ other.manufacturer ≠ "" then other.manufacturer else d.manufacturer) = _
      split_ifs with h₁ h₂ <;> simp_all
    · intro s
      exact mem_mergeSources s d.sources other.sources
    · intro k
      exact lookupKey_mergeExtraData k d.extraData other.extraData
    · show (if d.firstSeen = 0 ∨ (other.firstSeen ≠ 0 ∧ other.firstSeen < d.firstSeen) then
          other.firstSeen else d.firstSeen) = _
      split_ifs <;> omega
    · show (if other.lastSeen > d.lastSeen then other.lastSeen else d.lastSeen) = _
      split_ifs <;> omega
  · refine ⟨by decide, by decide, ?_, by decide, by decide, by decide, by decide, by decide⟩
    intro s
    show s ∈ ["a", "b"] ↔ _
    simp

/-- Keys of an association list (a Go map's key set). -/
def keysOf {α : Type} (m : List (String × α)) : List String :=
  m.map Prod.fst

/-- SetOpenPorts from device.go: replaces the map with a copy of the
argument (the copy is verbatim, entry lists included). -/
def Device.setOpenPorts (d : Device) (m : List (String × List Int)) : Device :=
  { d with openPorts := m }

/-- Open-ports list of a device for one protocol, empty when the
protocol is absent from the map. -/
def portsOf (d : Device) (proto : String) : List Int :=
  (lookupKey proto d.openPorts).getD []

/-- Well-formedness that every Go map trivially has: distinct keys; plus
the spec's Device invariant that every per-protocol list is
duplicate-free. -/
def PortsWF (m : List (String × List Int)) : Prop :=
  (keysOf m).Nodup ∧ ∀ pr ∈ m, (pr.2 : List Int).Nodup

/-- The C4 Device invariant: `openPorts[proto]` has distinct keys and no
duplicate ports. -/
def DeviceWF (d : Device) : Prop :=
  PortsWF d.openPorts

/-- A sequence of Merge calls between two devices: `true` merges the
second into the first, `false` the first into the second. -/
def mergeSeq (p : Device × Device) : List Bool → Device × Device
  | [] => p
  | b :: bs => mergeSeq (if b then (p.1.merge p.2, p.2) else (p.1, p.2.merge p.1)) bs

theorem lookupKey_eq_none {α : Type} (k : String) (m : List (String × α)) :
    lookupKey k m = none ↔ k ∉ keysOf m := by
  induction m with
  | nil => simp [lookupKey, keysOf]
  | cons kv rest ih =>
      simp only [lookupKey, keysOf, List.map_cons, List.mem_cons]
      by_cases h : kv.1 = k
      · simp [h]
      · simp only [if_neg h]
        simp only [keysOf] at ih
        rw [ih]
        constructor
        · intro hn hc
          rcases hc with hc | hc
          · exact h hc.symm
          · exact hn hc
        · intro hn hc
          exact hn (Or.inr hc)

theorem lookupKey_mem {α : Type} {k : String} {m : List (String × α)} {v : α}
    (h : lookupKey k m = some v) : (k, v) ∈ m := by
  induction m with
  | nil => simp [lookupKey] at h
  | cons kv rest ih =>
      by_cases hk : kv.1 = k
      · simp only [lookupKey, if_pos hk, Option.some.injEq] at h
        have hkv : (k, v) = kv := by
          cases kv
          simp_all
        rw [hkv]
        exact List.mem_cons_self _ _
      · simp only [lookupKey, if_neg hk] at h
        exact List.mem_cons_of_mem _ (ih h)

theorem lookupKey_updateKey_eq {α : Type} (k : String) (v : α) (m : List (String × α)) :
    lookupKey k (updateKey k v m) = (lookupKey k m).map (fun _ => v) := by
  induction m with
  | nil => simp [lookupKey, updateKey]
  | cons kv rest ih =>
      simp only [updateKey, List.map_cons] at ih ⊢
      by_cases h : kv.1 = k
      · simp [lookupKey, h]
      · simp only [if_neg h, lookupKey, h, if_false, if_neg h]
        exact ih

theorem lookupKey_updateKey_ne {α : Type} {k' k : String} (v : α) (m : List (String × α))
    (h : k' ≠ k) : lookupKey k' (updateKey k v m) = lookupKey k' m := by
  induction m with
  | nil => simp [lookupKey, updateKey]
  | cons kv rest ih =>
      show lookupKey k' ((if kv.1 = k then (k, v) else kv) :: updateKey k v rest) = _
      by_cases hk : kv.1 = k
      · rw [if_pos hk]
        show (if k = k' then some v else lookupKey k' (updateKey k v rest)) = _
        have hkk : ¬ (k = k') := fun e => h e.symm
        rw [if_neg hkk, ih]
        show _ = (if kv.1 = k' then some kv.2 else lookupKey k' rest)
        have hne : ¬ (kv.1 = k') := by rw [hk]; exact hkk
        rw [if_neg hne]
      · rw [if_neg hk]
        show (if kv.1 = k' then some kv.2 else lookupKey k' (updateKey k v rest)) =
          (if kv.1 = k' then some kv.2 else lookupKey k' rest)
        by_cases hk' : kv.1 = k'
        · rw [if_pos hk', if_pos hk']
        · rw [if_neg hk', if_neg hk', ih]

theorem keysOf_updateKey {α : Type} (k : String) (v : α) (m : List (String × α)) :
    keysOf (updateKey k v m) = keysOf m := by
  induction m with
  | nil => rfl
  | cons kv rest ih =>
      simp only [updateKey, keysOf, List.map_cons] at ih ⊢
      by_cases h : kv.1 = k
      · rw [if_pos h, ih, h]
      · rw [if_neg h, ih]

theorem mem_updateKey {α : Type} {pr : String × α} {k : String} {v : α} {m : List (String × α)}
    (h : pr ∈ updateKey k v m) : pr = (k, v) ∨ pr ∈ m := by
  induction m with
  | nil => simp [updateKey] at h
  | cons kv rest ih =>
      simp only [updateKey, List.map_cons, List.mem_cons] at h
      rcases h with h | h
      · by_cases hk : kv.1 = k
        · rw [if_pos hk] at h
          exact Or.inl h
        · rw [if_neg hk] at h
          exact Or.inr (h ▸ List.mem_cons_self _ _)
      · rcases ih h with h' | h'
        · exact Or.inl h'
        · exact Or.inr (List.mem_cons_of_mem _ h')

theorem mem_addMissingPorts (p : Int) (dl ports : List Int) :
    p ∈ addMissingPorts dl ports ↔ p ∈ dl ∨ p ∈ ports := by
  induction ports generalizing dl with
  | nil => simp [addMissingPorts]
  | cons q rest ih =>
      show p ∈ addMissingPorts (if q ∈ dl then dl else dl ++ [q]) rest ↔ _
      by_cases h : q ∈ dl
      · rw [if_pos h, ih]
        constructor
        · rintro (hs | hs)
          · exact Or.inl hs
          · exact Or.inr (List.mem_cons_of_mem _ hs)
        · rintro (hs | hs)
          · exact Or.inl hs
          · rcases List.mem_cons.mp hs with rfl | hs
            · exact Or.inl h
            · exact Or.inr hs
      · rw [if_neg h, ih]
        simp only [List.mem_append, List.mem_singleton, List.mem_cons]
        tauto

theorem addMissingPorts_nodup (dl ports : List Int) (hd : dl.Nodup) :
    (addMissingPorts dl ports).Nodup := by
  induction ports generalizing dl with
  | nil => exact hd
  | cons q rest ih =>
      show (addMissingPorts (if q ∈ dl then dl else dl ++ [q]) rest).Nodup
      by_cases h : q ∈ dl
      · rw [if_pos h]; exact ih dl hd
      · rw [if_neg h]
        refine ih _ ?_
        simpa [List.nodup_append] using ⟨hd, h⟩

theorem addMissingPorts_eq (dl ports : List Int) (h : ports.Nodup) :
    addMissingPorts dl ports = dl ++ ports.filter (fun p => p ∉ dl) := by
  induction ports generalizing dl with
  | nil => simp [addMissingPorts]
  | cons q rest ih =>
      rcases List.nodup_cons.mp h with ⟨hq, hrest⟩
      show addMissingPorts (if q ∈ dl then dl else dl ++ [q]) rest = _
      by_cases hmem : q ∈ dl
      · rw [if_pos hmem, ih dl hrest]
        simp [List.filter_cons, hmem]
      · rw [if_neg hmem, ih _ hrest]
        have hfilter : rest.filter (fun p => p ∉ dl ++ [q]) = rest.filter (fun p => p ∉ dl) := by
          refine List.filter_congr ?_
          intro a ha
          have hne : a ≠ q := fun hh => hq (hh ▸ ha)
          simp [hne]
        rw [hfilter]
        simp [List.filter_cons, hmem, List.append_assoc]

theorem lookupKey_append_some {α : Type} {k : String} {l₁ : List (String × α)} {v : α}
    (l₂ : List (String × α)) (h : lookupKey k l₁ = some v) : lookupKey k (l₁ ++ l₂) = some v := by
  induction l₁ with
  | nil => simp [lookupKey] at h
  | cons kv rest ih =>
      by_cases hk : kv.1 = k <;> simp only [lookupKey, if_pos, if_neg, hk, List.cons_append] at h ⊢ <;>
        simp_all [lookupKey]

theorem lookupKey_append_none {α : Type} {k : String} {l₁ : List (String × α)}
    (l₂ : List (String × α)) (h : lookupKey k l₁ = none) :
    lookupKey k (l₁ ++ l₂) = lookupKey k l₂ := by
  induction l₁ with
  | nil => rfl
  | cons kv rest ih =>
      by_cases hk : kv.1 = k <;> simp only [lookupKey, hk, if_true, if_false, if_pos, if_neg,
        List.cons_append] at h ⊢ <;> simp_all [lookupKey]

theorem lookupKey_mergeOpenPorts (proto : String) (dp op : List (String × List Int))
    (hop : (keysOf op).Nodup) :
    lookupKey proto (mergeOpenPorts dp op) =
      match lookupKey proto op with
      | none => lookupKey proto dp
      | some l =>
          match lookupKey proto dp with
          | none => some l
          | some dl => some (addMissingPorts dl l) := by
  induction op generalizing dp with
  | nil => simp [mergeOpenPorts, lookupKey]
  | cons pr rest ih =>
      have hkeys : pr.1 ∉ keysOf rest ∧ (keysOf rest).Nodup := by
        simpa [keysOf] using hop
      have step :
          mergeOpenPorts dp (pr :: rest) =
            mergeOpenPorts
              (match lookupKey pr.1 dp with
               | none => dp ++ [(pr.1, pr.2)]
               | some dl => updateKey pr.1 (addMissingPorts dl pr.2) dp) rest := by
        rfl
      rw [step, ih _ hkeys.2]
      by_cases hpq : pr.1 = proto
      · subst hpq
        have hrest : lookupKey pr.1 rest = none := (lookupKey_eq_none _ _).mpr hkeys.1
        rw [hrest]
        cases hdp : lookupKey pr.1 dp with
        | none =>
            simp only [hdp]
            rw [lookupKey_append_none _ hdp]
            simp [lookupKey]
        | some dl =>
            simp only [hdp]
            rw [lookupKey_updateKey_eq, hdp]
            simp [lookupKey, hdp]
      · have hhead : lookupKey proto (pr :: rest) = lookupKey proto rest := by
          simp [lookupKey, hpq]
        rw [hhead]
        have hsame :
            lookupKey proto
              (match lookupKey pr.1 dp with
               | none => dp ++ [(pr.1, pr.2)]
               | some dl => updateKey pr.1 (addMissingPorts dl pr.2) dp) =
              lookupKey proto dp := by
          cases hdp : lookupKey pr.1 dp with
          | none =>
              cases hdp' : lookupKey proto dp with
              | none =>
                  rw [lookupKey_append_none _ hdp']
                  simp [lookupKey, hpq]
              | some v => exact lookupKey_append_some _ hdp'
          | some dl => exact lookupKey_updateKey_ne _ _ (fun e => hpq e.symm)
        rw [hsame]

theorem mergeOpenPorts_wf (dp op : List (String × List Int)) (hdp : PortsWF dp)
    (hop : PortsWF op) : PortsWF (mergeOpenPorts dp op) := by
  induction op generalizing dp with
  | nil => exact hdp
  | cons pr rest ih =>
      have hkeys : pr.1 ∉ keysOf rest ∧ (keysOf rest).Nodup := by
        simpa [keysOf] using hop.1
      have hvals : (pr.2 : List Int).Nodup ∧ ∀ x ∈ rest, (x.2 : List Int).Nodup := by
        constructor
        · exact hop.2 pr (List.mem_cons_self _ _)
        · intro x hx
          exact hop.2 x (List.mem_cons_of_mem _ hx)
      have step :
          mergeOpenPorts dp (pr :: rest) =
            mergeOpenPorts
              (match lookupKey pr.1 dp with
               | none => dp ++ [(pr.1, pr.2)]
               | some dl => updateKey pr.1 (addMissingPorts dl pr.2) dp) rest := by
        rfl
      rw [step]
      refine ih _ ?_ ⟨hkeys.2, hvals.2⟩
      cases hdp' : lookupKey pr.1 dp with
      | none =>
          constructor
          · have hnot : pr.1 ∉ keysOf dp := (lookupKey_eq_none _ _).mp hdp'
            have hk : keysOf (dp ++ [(pr.1, pr.2)]) = keysOf dp ++ [pr.1] := by
              simp [keysOf]
            rw [hk]
            refine List.Nodup.append hdp.1 (List.nodup_singleton _) ?_
            intro a ha hb
            rw [List.mem_singleton] at hb
            subst hb
            exact hnot ha
          · intro x hx
            rcases List.mem_append.mp hx with hx | hx
            · exact hdp.2 x hx
            · rcases List.mem_singleton.mp hx with rfl
              exact hvals.1
      | some dl =>
          constructor
          · rw [keysOf_updateKey]
            exact hdp.1
          · intro x hx
            rcases mem_updateKey hx with rfl | hx
            · have hdl : dl.Nodup := hdp.2 _ (lookupKey_mem hdp')
              exact addMissingPorts_nodup _ _ hdl
            · exact hdp.2 x hx

theorem portsOf_merge (d o : Device) (ho : DeviceWF o) (proto : String) :
    portsOf (d.merge o) proto =
      portsOf d proto ++ (portsOf o proto).filter (fun p => p ∉ portsOf d proto) := by
  have hchar := lookupKey_mergeOpenPorts proto d.openPorts o.openPorts ho.1
  have hmerged : (d.merge o).openPorts = mergeOpenPorts d.openPorts o.openPorts := rfl
  unfold portsOf
  rw [hmerged, hchar]
  cases hop : lookupKey proto o.openPorts with
  | none => simp
  | some l =>
      have hl : l.Nodup := ho.2 _ (lookupKey_mem hop)
      cases hdp : lookupKey proto d.openPorts with
      | none =>
          simp only [Option.getD_some, Option.getD_none, List.nil_append]
          have : l.filter (fun p => p ∉ ([] : List Int)) = l := by
            simp
          rw [this]
      | some dl =>
          simp only [Option.getD_some]
          exact addMissingPorts_eq dl l hl

theorem portsOf_nodup {d : Device} (hd : DeviceWF d) (proto : String) :
    (portsOf d proto).Nodup := by
  unfold portsOf
  cases h : lookupKey proto d.openPorts with
  | none => simp
  | some l =>
      simpa using hd.2 _ (lookupKey_mem h)

theorem merge_wf {d o : Device} (hd : DeviceWF d) (ho : DeviceWF o) : DeviceWF (d.merge o) :=
  mergeOpenPorts_wf d.openPorts o.openPorts hd ho

theorem mem_portsOf_merge (d o : Device) (ho : DeviceWF o) (proto : String) (p : Int) :
    p ∈ portsOf (d.merge o) proto ↔ p ∈ portsOf d proto ∨ p ∈ portsOf o proto := by
  rw [portsOf_merge d o ho proto]
  simp only [List.mem_append, List.mem_filter, decide_not, Bool.not_eq_eq_eq_not,
    Bool.not_false, decide_eq_true_eq]
  constructor
  · rintro (h | ⟨h, _⟩)
    · exact Or.inl h
    · exact Or.inr h
  · rintro (h | h)
    · exact Or.inl h
    · by_cases hn : p ∈ portsOf d proto
      · exact Or.inl hn
      · exact Or.inr ⟨h, by simpa using hn⟩

/-- Sandwich property used along a merge sequence: `x` contains all of
`a`'s ports and sources and nothing outside `a ∪ b`. -/
def Between (a b x : Device) : Prop :=
  (∀ proto p, p ∈ portsOf a proto → p ∈ portsOf x proto) ∧
  (∀ proto p, p ∈ portsOf x proto → p ∈ portsOf a proto ∨ p ∈ portsOf b proto) ∧
  (∀ s, s ∈ a.sources → s ∈ x.sources) ∧
  (∀ s, s ∈ x.sources → s ∈ a.sources ∨ s ∈ b.sources)

theorem between_merge {a b x y : Device} (hy : DeviceWF y) (hx : Between a b x)
    (hyb : Between b a y) : Between a b (x.merge y) := by
  obtain ⟨h1, h2, h3, h4⟩ := hx
  obtain ⟨g1, g2, g3, g4⟩ := hyb
  refine ⟨?_, ?_, ?_, ?_⟩
  · intro proto p hp
    exact (mem_portsOf_merge x y hy proto p).mpr (Or.inl (h1 proto p hp))
  · intro proto p hp
    rcases (mem_portsOf_merge x y hy proto p).mp hp with hp | hp
    · exact h2 proto p hp
    · exact (g2 proto p hp).elim Or.inr Or.inl
  · intro s hs
    exact (mem_mergeSources s x.sources y.sources).mpr (Or.inl (h3 s hs))
  · intro s hs
    rcases (mem_mergeSources s x.sources y.sources).mp hs with hs | hs
    · exact h4 s hs
    · rcases g4 s hs with h | h
      · exact Or.inr h
      · exact Or.inl h

theorem mergeSeq_inv (d1 d2 : Device) (bs : List Bool) (x y : Device)
    (hx : DeviceWF x) (hy : DeviceWF y) (hbx : Between d1 d2 x) (hby : Between d2 d1 y) :
    DeviceWF (mergeSeq (x, y) bs).1 ∧ DeviceWF (mergeSeq (x, y) bs).2 ∧
      Between d1 d2 (mergeSeq (x, y) bs).1 ∧ Between d2 d1 (mergeSeq (x, y) bs).2 := by
  induction bs generalizing x y with
  | nil => exact ⟨hx, hy, hbx, hby⟩
  | cons b rest ih =>
      cases b with
      | true => exact ih (x.merge y) y (merge_wf hx hy) hy (between_merge hy hbx hby) hby
      | false => exact ih x (y.merge x) hx (merge_wf hy hx) hbx (between_merge hx hby hbx)

theorem between_refl (a b : Device) : Between a b a :=
  ⟨fun _ _ h => h, fun _ _ h => Or.inl h, fun _ h => h, fun _ h => Or.inl h⟩

/-- C4: `Merge` and `SetOpenPorts` preserve the Device invariant that
every `openPorts[proto]` list is duplicate-free (keys of the Go map are
distinct by construction), a single `Merge` produces per-protocol lists
that are the target's list followed by the operand's unseen ports in
their order of first appearance, and after any sequence of `Merge` calls
between two well-formed Devices with the same IP the final merge target
has duplicate-free per-protocol lists whose members are exactly the
union of the two original port sets, with `sources` the set union. -/
theorem merge_openPorts_invariant :
    (∀ d o : Device, DeviceWF d → DeviceWF o → DeviceWF (d.merge o)) ∧
    (∀ (d o : Device) (proto : String), DeviceWF o →
      portsOf (d.merge o) proto =
        portsOf d proto ++ (portsOf o proto).filter (fun p => p ∉ portsOf d proto)) ∧
    (∀ (d : Device) (m : List (String × List Int)), PortsWF m →
      DeviceWF (d.setOpenPorts m) ∧ (d.setOpenPorts m).openPorts = m) ∧
    (∀ (d1 d2 : Device) (bs : List Bool), DeviceWF d1 → DeviceWF d2 → d1.ip = d2.ip →
      DeviceWF ((mergeSeq (d1, d2) bs).1.merge (mergeSeq (d1, d2) bs).2) ∧
      (∀ proto, (portsOf ((mergeSeq (d1, d2) bs).1.merge (mergeSeq (d1, d2) bs).2) proto).Nodup) ∧
      (∀ proto p, p ∈ portsOf ((mergeSeq (d1, d2) bs).1.merge (mergeSeq (d1, d2) bs).2) proto ↔
        p ∈ portsOf d1 proto ∨ p ∈ portsOf d2 proto) ∧
      (∀ s, s ∈ ((mergeSeq (d1, d2) bs).1.merge (mergeSeq (d1, d2) bs).2).sources ↔
        s ∈ d1.sources ∨ s ∈ d2.sources)) := by
  refine ⟨fun d o hd ho => merge_wf hd ho, fun d o proto ho => portsOf_merge d o ho proto,
    fun d m hm => ⟨hm, rfl⟩, ?_⟩
  intro d1 d2 bs h1 h2 _hip
  obtain ⟨hx, hy, hbx, hby⟩ :=
    mergeSeq_inv d1 d2 bs d1 d2 h1 h2 (between_refl d1 d2) (between_refl d2 d1)
  set x := (mergeSeq (d1, d2) bs).1 with hxdef
  set y := (mergeSeq (d1, d2) bs).2 with hydef
  refine ⟨merge_wf hx hy, fun proto => portsOf_nodup (merge_wf hx hy) proto, ?_, ?_⟩
  · intro proto p
    rw [mem_portsOf_merge x y hy proto p]
    constructor
    · rintro (hp | hp)
      · exact hbx.2.1 proto p hp
      · exact (hby.2.1 proto p hp).elim Or.inr Or.inl
    · rintro (hp | hp)
      · exact Or.inl (hbx.1 proto p hp)
      · exact Or.inr (hby.1 proto p hp)
  · intro s
    show s ∈ mergeSources x.sources y.sources ↔ _
    rw [mem_mergeSources]
    constructor
    · rintro (hs | hs)
      · exact hbx.2.2.2 s hs
      · exact (hby.2.2.2 s hs).elim Or.inr Or.inl
    · rintro (hs | hs)
      · exact Or.inl (hbx.2.2.1 s hs)
      · exact Or.inr (hby.2.2.1 s hs)

/-- Witness for C4 at concrete devices with ports and sources. -/
theorem merge_openPorts_invariant_witness :
    DeviceWF (scenarioAD1.setOpenPorts [("tcp", [80, 443])]) ∧
    (∀ proto p,
      p ∈ portsOf
        ((mergeSeq (scenarioAD1.setOpenPorts [("tcp", [80, 443])],
            scenarioAD2.setOpenPorts [("tcp", [443, 22])]) [true, false]).1.merge
          (mergeSeq (scenarioAD1.setOpenPorts [("tcp", [80, 443])],
            scenarioAD2.setOpenPorts [("tcp", [443, 22])]) [true, false]).2) proto ↔
        p ∈ portsOf (scenarioAD1.setOpenPorts [("tcp", [80, 443])]) proto ∨
        p ∈ portsOf (scenarioAD2.setOpenPorts [("tcp", [443, 22])]) proto) := by
  constructor
  · exact (merge_openPorts_invariant.2.2.1 scenarioAD1 [("tcp", [80, 443])]
      (by constructor <;> decide)).1
  · exact (merge_openPorts_invariant.2.2.2 (scenarioAD1.setOpenPorts [("tcp", [80, 443])])
      (scenarioAD2.setOpenPorts [("tcp", [443, 22])]) [true, false]
      (by constructor <;> decide) (by constructor <;> decide) (by decide)).2.2.1

/-- Go strings.TrimSuffix: removes one copy of the suffix when present,
modelled on byte/char lists. -/
def trimSuffix (s suf : List Char) : List Char :=
  if suf <:+ s then s.take (s.length - suf.length) else s

/-- The ".local." suffix stripped by cleanDisplayName. -/
def localSuffix : List Char := ".local.".data

/-- cleanDisplayName from scanners/mdns/mdns.go: one TrimSuffix of
".local." followed by one TrimSuffix of ".". -/
def cleanDisplayName (name : List Char) : List Char :=
  trimSuffix (trimSuffix name localSuffix) ['.']

theorem trimSuffix_append (s suf : List Char) : trimSuffix (s ++ suf) suf = s := by
  unfold trimSuffix
  rw [if_pos (List.suffix_append s suf)]
  have hlen : (s ++ suf).length - suf.length = s.length := by
    simp
  rw [hlen]
  exact List.take_left s suf

theorem trimSuffix_of_not_suffix {s suf : List Char} (h : ¬ suf <:+ s) :
    trimSuffix s suf = s := if_neg h

/-- C5 counterexample: the claimed equation fails at s = "a.local."
(left side "a.local", right side "a"), and cleanName "a.." = "a." keeps
a trailing dot. -/
theorem cleanDisplayName_claim_counterexample :
    cleanDisplayName ("a.local.".data ++ localSuffix) ≠ cleanDisplayName "a.local.".data ∧
    ['.'] <:+ cleanDisplayName "a..".data := by
  constructor
  · decide
  · decide

/-- C5 amended: cleanName strips at most one trailing ".local." and then
at most one trailing '.'; hence cleanName(s ++ ".local.") = cleanName(s)
for every s that does not itself end in ".local.", and the result has no
trailing '.' for every s that ends neither in ".." nor in "...local.". -/
theorem cleanDisplayName_amended :
    (∀ s : List Char, ¬ localSuffix <:+ s →
      cleanDisplayName (s ++ localSuffix) = cleanDisplayName s) ∧
    (∀ s : List Char, ¬ ['.', '.'] <:+ s → ¬ (['.', '.'] ++ localSuffix) <:+ s →
      ¬ ['.'] <:+ cleanDisplayName s) := by
  constructor
  · intro s hs
    unfold cleanDisplayName
    rw [trimSuffix_append, trimSuffix_of_not_suffix hs]
  · intro s hdd hddl
    have hmid : ¬ ['.', '.'] <:+ trimSuffix s localSuffix := by
      by_cases hsuf : localSuffix <:+ s
      · obtain ⟨u, hu⟩ := hsuf
        rw [← hu, trimSuffix_append]
        intro hdu
        obtain ⟨v, hv⟩ := hdu
        refine hddl ⟨v, ?_⟩
        rw [← hu, ← hv, List.append_assoc]
      · rw [trimSuffix_of_not_suffix hsuf]
        exact hdd
    set t := trimSuffix s localSuffix with ht
    unfold cleanDisplayName
    rw [← ht]
    by_cases hd : ['.'] <:+ t
    · obtain ⟨w, hw⟩ := hd
      rw [← hw, trimSuffix_append]
      intro hdw
      obtain ⟨v, hv⟩ := hdw
      refine hmid ⟨v, ?_⟩
      rw [← hw, ← hv, List.append_assoc]
      rfl
    · rw [trimSuffix_of_not_suffix hd]
      exact hd

/-- Witness for C5's amended theorem at s = "My Device" and s = "abc.". -/
theorem cleanDisplayName_amended_witness :
    cleanDisplayName ("My Device".data ++ localSuffix) = cleanDisplayName "My Device".data ∧
    ¬ ['.'] <:+ cleanDisplayName "abc.".data := by
  constructor
  · exact cleanDisplayName_amended.1 "My Device".data (by decide)
  · exact cleanDisplayName_amended.2 "abc.".data (by decide) (by decide)

/-- ASCII uppercasing of one character; Go strings.ToUpper restricted to
the ASCII range that MAC strings use. -/
def asciiUpper (c : Char) : Char :=
  if 'a' ≤ c ∧ c ≤ 'z' then Char.ofNat (c.toNat - 32) else c

/-- Separator characters removed by the OUI normaliser (the three
ReplaceAll calls for "-", ":", "."). -/
def isSepChar (c : Char) : Bool :=
  c == '-' || c == ':' || c == '.'

/-- normalizeMACPrefix from pkg/discovery/oui: uppercase, delete the
separators, reject anything shorter than six characters, keep the first
six.  The three sequential ReplaceAll deletions are one filter. -/
def normalizeMACPrefix (s : List Char) : List Char :=
  let t := (s.map asciiUpper).filter (fun c => ! isSepChar c)
  if t.length < 6 then [] else t.take 6

/-- OUI Registry: the prefix map loaded from the CSV. -/
structure Registry where
  prefixMap : List (List Char × String)

/-- Go map read for the registry's prefix map. -/
def ouiFind (p : List Char) : List (List Char × String) → Option String
  | [] => none
  | kv :: rest => if kv.1 = p then some kv.2 else ouiFind p rest

/-- Registry.Lookup from pkg/discovery/oui: normalise, reject the empty
normal form, read the prefix map. -/
def Registry.Lookup (reg : Registry) (mac : List Char) : String × Bool :=
  let p := normalizeMACPrefix mac
  if p = [] then ("", false)
  else
    match ouiFind p reg.prefixMap with
    | none => ("", false)
    | some org => (org, true)

/-- The Scenario F registry containing AABBCC ↦ "Acme". -/
def acmeRegistry : Registry :=
  { prefixMap := [("AABBCC".data, "Acme")] }

/-- C8: Lookup depends only on the separator-stripped uppercased form of
its input, so any two representations of the same 48-bit MAC agree;
inputs with fewer than six characters after stripping are rejected; and
on the Scenario F registry the five literal lookups give the literal
results. -/
theorem ouiLookup_normalisation :
    (∀ (reg : Registry) (s₁ s₂ : List Char),
      (s₁.map asciiUpper).filter (fun c => ! isSepChar c) =
        (s₂.map asciiUpper).filter (fun c => ! isSepChar c) →
      reg.Lookup s₁ = reg.Lookup s₂) ∧
    (∀ (reg : Registry) (s : List Char),
      ((s.map asciiUpper).filter (fun c => ! isSepChar c)).length < 6 →
      reg.Lookup s = ("", false)) ∧
    (acmeRegistry.Lookup "aa:bb:cc:dd:ee:ff".data = ("Acme", true) ∧
     acmeRegistry.Lookup "AA-BB-CC-11-22-33".data = ("Acme", true) ∧
     acmeRegistry.Lookup "AABBCCDDEEFF".data = ("Acme", true) ∧
     acmeRegistry.Lookup "".data = ("", false) ∧
     acmeRegistry.Lookup "AABB".data = ("", false)) := by
  refine ⟨?_, ?_, by decide, by decide, by decide, by decide, by decide⟩
  · intro reg s₁ s₂ h
    unfold Registry.Lookup
    unfold normalizeMACPrefix
    rw [h]
  · intro reg s h
    unfold Registry.Lookup
    unfold normalizeMACPrefix
    simp only [if_pos h]
    rfl

/-- Witness for C8's conditional parts: equal stripped forms of the
same MAC, and a short input. -/
theorem ouiLookup_normalisation_witness :
    acmeRegistry.Lookup "aa-bb-cc-dd-ee-ff".data =
      acmeRegistry.Lookup "AA:BB:CC:DD:EE:FF".data ∧
    acmeRegistry.Lookup "a:b".data = ("", false) :=
  ⟨ouiLookup_normalisation.1 acmeRegistry "aa-bb-cc-dd-ee-ff".data "AA:BB:CC:DD:EE:FF".data
      (by decide),
   ouiLookup_normalisation.2.1 acmeRegistry "a:b".data (by decide)⟩

/-- Start times of successive scans in Engine.runScanLoop for a positive
interval, in a zero-overhead time model: a scan starting at `t` with
duration `d` finishes at `t + d`; the loop sets `nextDue = t + i` and
clamps it up to the finish time when it is already past
(`if nextDue.Before(time.Now()) { nextDue = time.Now() }`), then sleeps
until `nextDue`.  One list entry per observed scan duration. -/
def scanStartsFrom (i t : Int) : List Int → List Int
  | [] => []
  | d :: ds => t :: scanStartsFrom i (max (t + i) (t + d)) ds

/-- Engine.runScanLoop: `scanInterval <= 0` performs exactly one scan
(immediately) and returns; otherwise the fixed-rate loop starts at once
(`nextDue = time.Now()`). -/
def runScanLoopStarts (i : Int) (ds : List Int) : List Int :=
  if i ≤ 0 then [0] else scanStartsFrom i 0 ds

theorem scanStartsFrom_head (i t : Int) (ds : List Int) (h : ds ≠ []) :
    (scanStartsFrom i t ds).head? = some t := by
  cases ds with
  | nil => exact absurd rfl h
  | cons d rest => rfl

theorem scanStartsFrom_consecutive (i : Int) (ds : List Int) :
    ∀ (t : Int) (k : Nat) (d s₁ s₂ : Int), ds[k]? = some d →
      (scanStartsFrom i t ds)[k]? = some s₁ → (scanStartsFrom i t ds)[k + 1]? = some s₂ →
      s₂ = max (s₁ + i) (s₁ + d) := by
  induction ds with
  | nil => intro t k d s₁ s₂ hd _ _; simp at hd
  | cons d0 rest ih =>
      intro t k d s₁ s₂ hd h₁ h₂
      rw [show scanStartsFrom i t (d0 :: rest) =
        t :: scanStartsFrom i (max (t + i) (t + d0)) rest from rfl] at h₁ h₂
      cases k with
      | zero =>
          have hdd : d0 = d := by simpa using hd
          have hts : t = s₁ := by simpa using h₁
          cases rest with
          | nil => simp [scanStartsFrom] at h₂
          | cons r rrest =>
              have hs₂ : max (t + i) (t + d0) = s₂ := by
                simpa [scanStartsFrom] using h₂
              omega
      | succ k' =>
          have hd' : rest[k']? = some d := by simpa using hd
          have h₁' : (scanStartsFrom i (max (t + i) (t + d0)) rest)[k']? = some s₁ := by
            simpa using h₁
          have h₂' : (scanStartsFrom i (max (t + i) (t + d0)) rest)[k' + 1]? = some s₂ := by
            simpa using h₂
          exact ih (max (t + i) (t + d0)) k' d s₁ s₂ hd' h₁' h₂'

/-- C2: with interval i > 0 the first scan starts immediately (time 0 on
Start); each next scan starts at the previous start plus i when the scan
duration d is at most i, and immediately at the previous scan's end when
d exceeds i (no catch-up queue); scans never overlap (next start is at
or after the previous end); with i = 0 exactly one scan runs and the
loop exits. -/
theorem runScanLoop_schedule :
    (∀ (i : Int) (ds : List Int), 0 < i → ds ≠ [] →
      (runScanLoopStarts i ds).head? = some 0) ∧
    (∀ (i : Int) (ds : List Int) (k : Nat) (d s₁ s₂ : Int), 0 < i → 0 ≤ d →
      ds[k]? = some d → (runScanLoopStarts i ds)[k]? = some s₁ →
      (runScanLoopStarts i ds)[k + 1]? = some s₂ →
      (d ≤ i → s₂ = s₁ + i) ∧ (i < d → s₂ = s₁ + d) ∧ s₁ + d ≤ s₂) ∧
    (∀ ds : List Int, runScanLoopStarts 0 ds = [0]) := by
  refine ⟨?_, ?_, ?_⟩
  · intro i ds hi hds
    unfold runScanLoopStarts
    rw [if_neg (by omega)]
    exact scanStartsFrom_head i 0 ds hds
  · intro i ds k d s₁ s₂ hi _hd hk h₁ h₂
    unfold runScanLoopStarts at h₁ h₂
    rw [if_neg (by omega)] at h₁ h₂
    have hstep := scanStartsFrom_consecutive i ds 0 k d s₁ s₂ hk h₁ h₂
    refine ⟨fun hle => ?_, fun hlt => ?_, ?_⟩ <;> omega
  · intro ds
    unfold runScanLoopStarts
    rw [if_pos (by omega)]

/-- Witness for C2 at i = 10 with scan durations [3, 25, 4]: the first
scan starts at 0 and the second starts at 0 + 10. -/
theorem runScanLoop_schedule_witness :
    (runScanLoopStarts 10 [3, 25, 4]).head? = some 0 ∧
    (((3 : Int) ≤ 10 → (10 : Int) = 0 + 10) ∧ ((10 : Int) < 3 → (10 : Int) = 0 + 3) ∧
      (0 : Int) + 3 ≤ 10) ∧
    runScanLoopStarts 0 [3, 25, 4] = [0] :=
  ⟨runScanLoop_schedule.1 10 [3, 25, 4] (by omega) (by decide),
   runScanLoop_schedule.2.1 10 [3, 25, 4] 0 3 0 10 (by omega) (by omega) (by decide) (by decide)
     (by decide),
   runScanLoop_schedule.2.2 [3, 25, 4]⟩

/-- Default scan interval, 20 s in nanoseconds (engine.go). -/
def DefaultScanInterval : Int := 20 * 1000000000

/-- Default scan timeout, 10 s in nanoseconds (engine.go). -/
def DefaultScanTimeout : Int := 10 * 1000000000

/-- Default sweep interval, 5 min in nanoseconds (engine.go). -/
def DefaultSweepInterval : Int := 5 * 60 * 1000000000

/-- Default sweep timeout, 20 s in nanoseconds (engine.go). -/
def DefaultSweepTimeout : Int := 20 * 1000000000

/-- Message of engine.go's ErrNoScannersOrSweeper. -/
def ErrNoScannersOrSweeper : String :=
  "no scanners or sweeper configured; at least one is required"

/-- Message of engine.go's ErrNoInterface. -/
def ErrNoInterface : String := "no network interface provided"

/-- Engine configuration state as NewEngine builds it; scanners are kept
by name, sweeper / interface / registry / logger presence by Option or
Bool since only presence matters to construction. -/
structure Engine where
  scanners : List String
  sweeper : Option Unit
  iface : Option Unit
  sweepInterval : Int
  sweepTimeout : Int
  scanInterval : Int
  scanTimeout : Int
  hasLogger : Bool
  hasOUIRegistry : Bool
deriving Repr, DecidableEq

/-- The engine value NewEngine starts from before applying options. -/
def defaultEngine : Engine :=
  { scanners := []
    sweeper := none
    iface := none
    sweepInterval := DefaultSweepInterval
    sweepTimeout := DefaultSweepTimeout
    scanInterval := DefaultScanInterval
    scanTimeout := DefaultScanTimeout
    hasLogger := true
    hasOUIRegistry := false }

/-- The option constructors of engine_options.go.  `withLogger false`
and `withInterface false` model passing nil. -/
inductive EngineOption where
  | withScanTimeout (t : Int)
  | withScanInterval (i : Int)
  | withSweeper
  | withLogger (present : Bool)
  | withInterface (present : Bool)
  | withScanners (names : List String)
  | withOUIRegistry
deriving Repr, DecidableEq

/-- Each Option function of engine_options.go applied to the engine
under construction. -/
def applyOption (e : Engine) : EngineOption → Except String Engine
  | .withScanTimeout t =>
      if t ≤ 0 then .error "timeout must be positive" else .ok { e with scanTimeout := t }
  | .withScanInterval i =>
      if i < 0 then .error "interval must be >= 0" else .ok { e with scanInterval := i }
  | .withSweeper => .ok { e with sweeper := some () }
  | .withLogger present =>
      if present then .ok { e with hasLogger := true } else .error "logger cannot be nil"
  | .withInterface present =>
      if present then .ok { e with iface := some () } else .error "interface cannot be nil"
  | .withScanners names =>
      if names = [] then .error "at least one scanner required" else .ok { e with scanners := names }
  | .withOUIRegistry => .ok { e with hasOUIRegistry := true }

/-- The option loop of NewEngine; the first failing option aborts
construction. -/
def applyOptions : Engine → List EngineOption → Except String Engine
  | e, [] => .ok e
  | e, o :: os =>
      match applyOption e o with
      | .error m => .error m
      | .ok e' => applyOptions e' os

/-- NewEngine from engine.go: defaults, options in order, then the two
essential-component checks. -/
def NewEngine (opts : List EngineOption) : Except String Engine :=
  match applyOptions defaultEngine opts with
  | .error m => .error m
  | .ok e =>
      if e.scanners = [] ∧ e.sweeper = none then .error ErrNoScannersOrSweeper
      else if e.iface = none then .error ErrNoInterface
      else .ok e

/-- Whether an option supplies scanners or a sweeper. -/
def suppliesScannersOrSweeper : EngineOption → Bool
  | .withSweeper => true
  | .withScanners _ => true
  | _ => false

/-- Whether an option supplies the network interface. -/
def suppliesIface : EngineOption → Bool
  | .withInterface _ => true
  | _ => false

theorem applyOption_preserves {e e' : Engine} {o : EngineOption} (h : applyOption e o = .ok e')
    (hno : suppliesScannersOrSweeper o = false) :
    e'.scanners = e.scanners ∧ e'.sweeper = e.sweeper := by
  cases o with
  | withScanTimeout t =>
      simp only [applyOption] at h
      by_cases hc : t ≤ 0
      · rw [if_pos hc] at h
        exact Except.noConfusion h
      · rw [if_neg hc] at h
        simp only [Except.ok.injEq] at h
        subst h
        exact ⟨rfl, rfl⟩
  | withScanInterval i =>
      simp only [applyOption] at h
      by_cases hc : i < 0
      · rw [if_pos hc] at h
        exact Except.noConfusion h
      · rw [if_neg hc] at h
        simp only [Except.ok.injEq] at h
        subst h
        exact ⟨rfl, rfl⟩
  | withSweeper => simp [suppliesScannersOrSweeper] at hno
  | withLogger present =>
      simp only [applyOption] at h
      by_cases hc : present = true
      · rw [if_pos hc] at h
        simp only [Except.ok.injEq] at h
        subst h
        exact ⟨rfl, rfl⟩
      · rw [if_neg hc] at h
        exact Except.noConfusion h
  | withInterface present =>
      simp only [applyOption] at h
      by_cases hc : present = true
      · rw [if_pos hc] at h
        simp only [Except.ok.injEq] at h
        subst h
        exact ⟨rfl, rfl⟩
      · rw [if_neg hc] at h
        exact Except.noConfusion h
  | withScanners names => simp [suppliesScannersOrSweeper] at hno
  | withOUIRegistry =>
      simp only [applyOption] at h
      simp only [Except.ok.injEq] at h
      subst h
      exact ⟨rfl, rfl⟩

theorem applyOption_iface_preserves {e e' : Engine} {o : EngineOption}
    (h : applyOption e o = .ok e') (hno : suppliesIface o = false) : e'.iface = e.iface := by
  cases o with
  | withScanTimeout t =>
      simp only [applyOption] at h
      by_cases hc : t ≤ 0
      · rw [if_pos hc] at h
        exact Except.noConfusion h
      · rw [if_neg hc] at h
        simp only [Except.ok.injEq] at h
        subst h
        rfl
  | withScanInterval i =>
      simp only [applyOption] at h
      by_cases hc : i < 0
      · rw [if_pos hc] at h
        exact Except.noConfusion h
      · rw [if_neg hc] at h
        simp only [Except.ok.injEq] at h
        subst h
        rfl
  | withSweeper =>
      simp only [applyOption] at h
      simp only [Except.ok.injEq] at h
      subst h
      rfl
  | withLogger present =>
      simp only [applyOption] at h
      by_cases hc : present = true
      · rw [if_pos hc] at h
        simp only [Except.ok.injEq] at h
        subst h
        rfl
      · rw [if_neg hc] at h
        exact Except.noConfusion h
  | withInterface present => simp [suppliesIface] at hno
  | withScanners names =>
      simp only [applyOption] at h
      by_cases hc : names = []
      · rw [if_pos hc] at h
        exact Except.noConfusion h
      · rw [if_neg hc] at h
        simp only [Except.ok.injEq] at h
        subst h
        rfl
  | withOUIRegistry =>
      simp only [applyOption] at h
      simp only [Except.ok.injEq] at h
      subst h
      rfl

theorem applyOption_keeps {e e' : Engine} {o : EngineOption} (h : applyOption e o = .ok e')
    (hs : e.scanners ≠ [] ∨ e.sweeper ≠ none) : e'.scanners ≠ [] ∨ e'.sweeper ≠ none := by
  cases hp : suppliesScannersOrSweeper o with
  | false =>
      obtain ⟨h1, h2⟩ := applyOption_preserves h hp
      rw [h1, h2]
      exact hs
  | true =>
      cases o with
      | withSweeper =>
          simp only [applyOption] at h
          simp only [Except.ok.injEq] at h
          subst h
          exact Or.inr (by simp)
      | withScanners names =>
          simp only [applyOption] at h
          by_cases hc : names = []
          · rw [if_pos hc] at h
            exact Except.noConfusion h
          · rw [if_neg hc] at h
            simp only [Except.ok.injEq] at h
            subst h
            exact Or.inl hc
      | withScanTimeout t => simp [suppliesScannersOrSweeper] at hp
      | withScanInterval i => simp [suppliesScannersOrSweeper] at hp
      | withLogger present => simp [suppliesScannersOrSweeper] at hp
      | withInterface present => simp [suppliesScannersOrSweeper] at hp
      | withOUIRegistry => simp [suppliesScannersOrSweeper] at hp

theorem applyOption_provides {e e1 : Engine} {o : EngineOption} (h : applyOption e o = .ok e1)
    (hp : suppliesScannersOrSweeper o = true) : e1.scanners ≠ [] ∨ e1.sweeper ≠ none := by
  cases o with
  | withSweeper =>
      simp only [applyOption, Except.ok.injEq] at h
      subst h
      exact Or.inr (by simp)
  | withScanners names =>
      simp only [applyOption] at h
      by_cases hc : names = []
      · rw [if_pos hc] at h
        exact Except.noConfusion h
      · rw [if_neg hc] at h
        simp only [Except.ok.injEq] at h
        subst h
        exact Or.inl hc
  | withScanTimeout t => simp [suppliesScannersOrSweeper] at hp
  | withScanInterval i => simp [suppliesScannersOrSweeper] at hp
  | withLogger present => simp [suppliesScannersOrSweeper] at hp
  | withInterface present => simp [suppliesScannersOrSweeper] at hp
  | withOUIRegistry => simp [suppliesScannersOrSweeper] at hp

theorem applyOptions_preserves (opts : List EngineOption) :
    ∀ (e0 e : Engine), applyOptions e0 opts = .ok e →
      (∀ o ∈ opts, suppliesScannersOrSweeper o = false) →
      e.scanners = e0.scanners ∧ e.sweeper = e0.sweeper := by
  induction opts with
  | nil =>
      intro e0 e h _
      simp only [applyOptions, Except.ok.injEq] at h
      subst h
      exact ⟨rfl, rfl⟩
  | cons o os ih =>
      intro e0 e h hall
      cases happ : applyOption e0 o with
      | error m =>
          simp only [applyOptions, happ] at h
          exact Except.noConfusion h
      | ok e1 =>
          simp only [applyOptions, happ] at h
          have h1 := applyOption_preserves happ (hall o (List.mem_cons_self _ _))
          have h2 := ih e1 e h (fun o' ho' => hall o' (List.mem_cons_of_mem _ ho'))
          exact ⟨h2.1.trans h1.1, h2.2.trans h1.2⟩

theorem applyOptions_iface (opts : List EngineOption) :
    ∀ (e0 e : Engine), applyOptions e0 opts = .ok e →
      (∀ o ∈ opts, suppliesIface o = false) → e.iface = e0.iface := by
  induction opts with
  | nil =>
      intro e0 e h _
      simp only [applyOptions, Except.ok.injEq] at h
      subst h
      rfl
  | cons o os ih =>
      intro e0 e h hall
      cases happ : applyOption e0 o with
      | error m =>
          simp only [applyOptions, happ] at h
          exact Except.noConfusion h
      | ok e1 =>
          simp only [applyOptions, happ] at h
          have h1 := applyOption_iface_preserves happ (hall o (List.mem_cons_self _ _))
          have h2 := ih e1 e h (fun o' ho' => hall o' (List.mem_cons_of_mem _ ho'))
          exact h2.trans h1

theorem applyOptions_keeps (opts : List EngineOption) :
    ∀ (e0 e : Engine), applyOptions e0 opts = .ok e →
      (e0.scanners ≠ [] ∨ e0.sweeper ≠ none) → e.scanners ≠ [] ∨ e.sweeper ≠ none := by
  induction opts with
  | nil =>
      intro e0 e h hs
      simp only [applyOptions, Except.ok.injEq] at h
      subst h
      exact hs
  | cons o os ih =>
      intro e0 e h hs
      cases happ : applyOption e0 o with
      | error m =>
          simp only [applyOptions, happ] at h
          exact Except.noConfusion h
      | ok e1 =>
          simp only [applyOptions, happ] at h
          exact ih e1 e h (applyOption_keeps happ hs)

theorem applyOptions_provider (opts : List EngineOption) :
    ∀ (e0 e : Engine), applyOptions e0 opts = .ok e →
      (∃ o ∈ opts, suppliesScannersOrSweeper o = true) →
      e.scanners ≠ [] ∨ e.sweeper ≠ none := by
  induction opts with
  | nil =>
      rintro e0 e h ⟨o, ho, _⟩
      simp at ho
  | cons o os ih =>
      rintro e0 e h ⟨o', ho', hp⟩
      cases happ : applyOption e0 o with
      | error m =>
          simp only [applyOptions, happ] at h
          exact Except.noConfusion h
      | ok e1 =>
          simp only [applyOptions, happ] at h
          rcases List.mem_cons.mp ho' with rfl | ho'
          · exact applyOptions_keeps os e1 e h (applyOption_provides happ hp)
          · exact ih e1 e h ⟨o', ho', hp⟩

/-- C9: engine construction fails with ErrNoScannersOrSweeper when no
option supplies scanners or a sweeper, and with ErrNoInterface when
scanners or a sweeper are supplied but no interface option is; the
scan-timeout option rejects every value at or below zero and accepts the
rest; the scan-interval option rejects negatives and accepts zero; and
with both options omitted the built engine carries the defaults of 10 s
scan timeout and 20 s scan interval. -/
theorem newEngine_validation :
    (∀ (e : Engine) (t : Int),
      (t ≤ 0 → applyOption e (.withScanTimeout t) = .error "timeout must be positive") ∧
      (0 < t → applyOption e (.withScanTimeout t) = .ok { e with scanTimeout := t })) ∧
    (∀ (e : Engine) (i : Int),
      (i < 0 → applyOption e (.withScanInterval i) = .error "interval must be >= 0") ∧
      (0 ≤ i → applyOption e (.withScanInterval i) = .ok { e with scanInterval := i })) ∧
    (∀ (opts : List EngineOption) (e : Engine), applyOptions defaultEngine opts = .ok e →
      (∀ o ∈ opts, suppliesScannersOrSweeper o = false) →
      NewEngine opts = .error ErrNoScannersOrSweeper) ∧
    (∀ (opts : List EngineOption) (e : Engine), applyOptions defaultEngine opts = .ok e →
      (∃ o ∈ opts, suppliesScannersOrSweeper o = true) →
      (∀ o ∈ opts, suppliesIface o = false) →
      NewEngine opts = .error ErrNoInterface) ∧
    ((NewEngine [.withInterface true, .withScanners ["s"]]).map
        (fun e => (e.scanTimeout, e.scanInterval)) =
      .ok (DefaultScanTimeout, DefaultScanInterval) ∧
     DefaultScanTimeout = 10 * 1000000000 ∧ DefaultScanInterval = 20 * 1000000000) := by
  refine ⟨?_, ?_, ?_, ?_, rfl, rfl, rfl⟩
  · intro e t
    constructor
    · intro h
      simp only [applyOption]
      rw [if_pos h]
    · intro h
      simp only [applyOption]
      rw [if_neg (by omega)]
  · intro e i
    constructor
    · intro h
      simp only [applyOption]
      rw [if_pos h]
    · intro h
      simp only [applyOption]
      rw [if_neg (by omega)]
  · intro opts e h hall
    obtain ⟨h1, h2⟩ := applyOptions_preserves opts defaultEngine e h hall
    simp only [NewEngine, h]
    rw [if_pos (show e.scanners = [] ∧ e.sweeper = none from ⟨h1, h2⟩)]
  · intro opts e h hex hiface
    have hne := applyOptions_provider opts defaultEngine e h hex
    have hif : e.iface = none := applyOptions_iface opts defaultEngine e h hiface
    simp only [NewEngine, h]
    rw [if_neg (by rcases hne with hne | hne <;> intro hc <;> [exact hne hc.1; exact hne hc.2])]
    rw [if_pos hif]

/-- Witness for C9: a non-positive timeout is rejected, a zero interval
accepted, no options at all fail with ErrNoScannersOrSweeper, and a
sweeper without an interface fails with ErrNoInterface. -/
theorem newEngine_validation_witness :
    applyOption defaultEngine (.withScanTimeout (-5)) = .error "timeout must be positive" ∧
    applyOption defaultEngine (.withScanInterval 0) =
      .ok { defaultEngine with scanInterval := 0 } ∧
    NewEngine [] = .error ErrNoScannersOrSweeper ∧
    NewEngine [.withSweeper] = .error ErrNoInterface :=
  ⟨(newEngine_validation.1 defaultEngine (-5)).1 (by omega),
   (newEngine_validation.2.1 defaultEngine 0).2 (by omega),
   newEngine_validation.2.2.1 [] defaultEngine rfl (by simp),
   newEngine_validation.2.2.2.1 [.withSweeper] { defaultEngine with sweeper := some () }
     rfl ⟨.withSweeper, by simp, rfl⟩ (by simp [suppliesIface])⟩

/-- SetMAC from device.go. -/
def Device.setMAC (d : Device) (mac : String) : Device := { d with mac := mac }

/-- SetDisplayName from device.go. -/
def Device.setDisplayName (d : Device) (name : String) : Device := { d with displayName := name }

/-- SetLastSeen from device.go. -/
def Device.setLastSeen (d : Device) (t : Nat) : Device := { d with lastSeen := t }

/-- AddSource from device.go: a set insertion into the sources map. -/
def Device.addSource (d : Device) (name : String) : Device :=
  { d with sources := if name ∈ d.sources then d.sources else d.sources ++ [name] }

/-- AddExtraData from device.go: a Go map assignment, overwriting an
existing key or appending a new one. -/
def Device.addExtraData (d : Device) (k v : String) : Device :=
  { d with
    extraData :=
      if (lookupKey k d.extraData).isSome then updateKey k v d.extraData
      else d.extraData ++ [(k, v)] }

/-- One lowercase hex digit. -/
def hexDigit (n : Nat) : Char :=
  if n < 10 then Char.ofNat (48 + n) else Char.ofNat (87 + n)

/-- Two lowercase hex digits of one byte. -/
def byteHex (b : Nat) : List Char :=
  [hexDigit ((b / 16) % 16), hexDigit (b % 16)]

/-- net.HardwareAddr.String(): lowercase hex bytes joined by colons. -/
def macToString (mac : List Nat) : String :=
  String.mk (List.intercalate [':'] (mac.map byteHex))

/-- An IPv4 network: address and 4-byte mask (net.IPNet for an IPv4
subnet). -/
structure IPNet where
  ip : IPv4
  mask : IPv4
deriving Repr, DecidableEq

/-- Entry from arp.go: one ARP cache row.  The age is a tick count like
Device times (Go time.Duration, non-negative in cache entries). -/
structure Entry where
  ip : Option IPv4
  mac : Option (List Nat)
  age : Nat
  interfaceName : String
deriving Repr, DecidableEq

/-- isMulticastMAC from arp.go: non-empty and least-significant bit of
the first octet set. -/
def isMulticastMAC (mac : List Nat) : Bool :=
  match mac with
  | [] => false
  | b :: _ => (b &&& 1) != 0

/-- isBroadcastMAC from arp.go: exactly six 0xFF octets. -/
def isBroadcastMAC (mac : List Nat) : Bool :=
  match mac with
  | [b0, b1, b2, b3, b4, b5] =>
      b0 == 255 && b1 == 255 && b2 == 255 && b3 == 255 && b4 == 255 && b5 == 255
  | _ => false

/-- isMulticastIPv4 from arp.go: high nibble of the first octet equals
1110 (224). -/
def isMulticastIPv4 (ip : IPv4) : Bool :=
  (ip.o1 &&& 240) == 224

/-- The broadcast address computed by isBroadcastIPv4:
network = ip AND mask, broadcast = network OR (complement of mask),
octet-wise; the Go byte complement `^m` is `m ^^^ 255`. -/
def broadcastOf (subnet : IPNet) : IPv4 :=
  { o1 := (subnet.ip.o1 &&& subnet.mask.o1) ||| (subnet.mask.o1 ^^^ 255)
    o2 := (subnet.ip.o2 &&& subnet.mask.o2) ||| (subnet.mask.o2 ^^^ 255)
    o3 := (subnet.ip.o3 &&& subnet.mask.o3) ||| (subnet.mask.o3 ^^^ 255)
    o4 := (subnet.ip.o4 &&& subnet.mask.o4) ||| (subnet.mask.o4 ^^^ 255) }

/-- isBroadcastIPv4 from arp.go (nil guards drop in the IPv4-only
embedding; the engine always supplies a subnet with a 4-byte mask). -/
def isBroadcastIPv4 (ip : IPv4) (subnet : IPNet) : Bool :=
  ip == broadcastOf subnet

/-- The environment of one emitARPEntries call: the current time and the
configured interface. -/
structure ArpEnv where
  now : Nat
  ifaceName : String
  subnet : IPNet

/-- The body of the emitARPEntries loop for one entry: the `continue`
filters become `none`, an emitted Device becomes `some` (the channel
send and ctx.Done() are determinised away). -/
def emitEntry (env : ArpEnv) (e : Entry) : Option Device :=
  match e.ip, e.mac with
  | some ip, some mac =>
      if e.interfaceName != env.ifaceName then none
      else if isMulticastMAC mac || isBroadcastMAC mac || isMulticastIPv4 ip ||
          isBroadcastIPv4 ip env.subnet then none
      else
        let d := NewDevice env.now (some ip)
        let d := d.setMAC (macToString mac)
        let d := d.addSource "arp-cache"
        let d := if e.age > 0 then d.setLastSeen (env.now - e.age) else d.setLastSeen env.now
        some d
  | _, _ => none

/-- emitARPEntries from arp.go over a list of entries. -/
def emitARPEntries (env : ArpEnv) (entries : List Entry) : List Device :=
  entries.filterMap (emitEntry env)

theorem and_one_ne_zero_iff : ∀ b : Nat, ((b &&& 1) != 0) = true ↔ b % 2 = 1 := by
  intro b
  have h : b &&& 1 = b % 2 := Nat.and_one_is_mod b
  rw [bne_iff_ne, h]
  omega

theorem isMulticastMAC_iff (mac : List Nat) :
    isMulticastMAC mac = true ↔ ∃ b bs, mac = b :: bs ∧ b % 2 = 1 := by
  cases mac with
  | nil => simp [isMulticastMAC]
  | cons b bs =>
      rw [show isMulticastMAC (b :: bs) = ((b &&& 1) != 0) from rfl, and_one_ne_zero_iff]
      constructor
      · intro h
        exact ⟨b, bs, rfl, h⟩
      · rintro ⟨b', bs', heq, h⟩
        cases heq
        exact h

theorem isBroadcastMAC_iff (mac : List Nat) :
    isBroadcastMAC mac = true ↔ mac = [255, 255, 255, 255, 255, 255] := by
  rcases mac with _ | ⟨b0, _ | ⟨b1, _ | ⟨b2, _ | ⟨b3, _ | ⟨b4, _ | ⟨b5, _ | ⟨b6, t⟩⟩⟩⟩⟩⟩⟩ <;>
    simp [isBroadcastMAC]
  tauto

set_option maxRecDepth 4096 in
theorem nibble_iff : ∀ m : Nat, m < 256 → (((m &&& 240) == 224) = true ↔ (224 ≤ m ∧ m < 240)) := by
  decide

set_option maxRecDepth 4096 in
theorem xorByte : ∀ m : Nat, m < 256 → m ^^^ 255 = 255 - m := by
  decide

/-- C6: an ARP entry is dropped exactly when its interface differs from
the configured one, its MAC's first octet has the least-significant bit
set, its MAC is ff:ff:ff:ff:ff:ff, its IPv4 lies in 224.0.0.0/4, or it
equals the subnet broadcast network OR (NOT mask); every other entry
with non-nil IP and MAC is emitted as a Device with that IP, the
formatted MAC, sources {"arp-cache"} and lastSeen now minus age (now
when the age is zero). -/
theorem arp_emit_filter :
    (∀ (env : ArpEnv) (entries : List Entry) (d : Device),
      d ∈ emitARPEntries env entries ↔ ∃ e ∈ entries, emitEntry env e = some d) ∧
    (∀ (env : ArpEnv) (e : Entry), e.ip = none ∨ e.mac = none → emitEntry env e = none) ∧
    (∀ (env : ArpEnv) (e : Entry) (ip : IPv4) (mac : List Nat),
      e.ip = some ip → e.mac = some mac → ip.o1 < 256 →
      env.subnet.mask.o1 < 256 → env.subnet.mask.o2 < 256 →
      env.subnet.mask.o3 < 256 → env.subnet.mask.o4 < 256 →
      ((emitEntry env e = none ↔
         e.interfaceName ≠ env.ifaceName ∨
         (∃ b bs, mac = b :: bs ∧ b % 2 = 1) ∨
         mac = [255, 255, 255, 255, 255, 255] ∨
         (224 ≤ ip.o1 ∧ ip.o1 < 240) ∨
         (ip.o1 = ((env.subnet.ip.o1 &&& env.subnet.mask.o1) ||| (255 - env.subnet.mask.o1)) ∧
          ip.o2 = ((env.subnet.ip.o2 &&& env.subnet.mask.o2) ||| (255 - env.subnet.mask.o2)) ∧
          ip.o3 = ((env.subnet.ip.o3 &&& env.subnet.mask.o3) ||| (255 - env.subnet.mask.o3)) ∧
          ip.o4 = ((env.subnet.ip.o4 &&& env.subnet.mask.o4) ||| (255 - env.subnet.mask.o4)))) ∧
       (∀ d, emitEntry env e = some d →
         d.ip = some ip ∧ d.mac = macToString mac ∧ d.sources = ["arp-cache"] ∧
         d.lastSeen = (if e.age > 0 then env.now - e.age else env.now)))) := by
  refine ⟨?_, ?_, ?_⟩
  · intro env entries d
    simp [emitARPEntries, List.mem_filterMap]
  · intro env e h
    rcases h with h | h
    · cases hm : e.mac <;> simp [emitEntry, h, hm]
    · cases hi : e.ip <;> simp [emitEntry, h, hi]
  · intro env e ip mac hip hmac hb1 hm1 hm2 hm3 hm4
    obtain ⟨a, b, c, d4⟩ := ip
    have hbcast :
        (isBroadcastIPv4 ⟨a, b, c, d4⟩ env.subnet = true) ↔
          (a = ((env.subnet.ip.o1 &&& env.subnet.mask.o1) ||| (255 - env.subnet.mask.o1)) ∧
           b = ((env.subnet.ip.o2 &&& env.subnet.mask.o2) ||| (255 - env.subnet.mask.o2)) ∧
           c = ((env.subnet.ip.o3 &&& env.subnet.mask.o3) ||| (255 - env.subnet.mask.o3)) ∧
           d4 = ((env.subnet.ip.o4 &&& env.subnet.mask.o4) ||| (255 - env.subnet.mask.o4))) := by
      constructor
      · intro h
        have heq : IPv4.mk a b c d4 = broadcastOf env.subnet := beq_iff_eq.mp h
        rw [show broadcastOf env.subnet = IPv4.mk
            ((env.subnet.ip.o1 &&& env.subnet.mask.o1) ||| (env.subnet.mask.o1 ^^^ 255))
            ((env.subnet.ip.o2 &&& env.subnet.mask.o2) ||| (env.subnet.mask.o2 ^^^ 255))
            ((env.subnet.ip.o3 &&& env.subnet.mask.o3) ||| (env.subnet.mask.o3 ^^^ 255))
            ((env.subnet.ip.o4 &&& env.subnet.mask.o4) ||| (env.subnet.mask.o4 ^^^ 255))
            from rfl, IPv4.mk.injEq, xorByte env.subnet.mask.o1 hm1,
          xorByte env.subnet.mask.o2 hm2, xorByte env.subnet.mask.o3 hm3,
          xorByte env.subnet.mask.o4 hm4] at heq
        exact heq
      · rintro ⟨h1, h2, h3, h4⟩
        have heq : IPv4.mk a b c d4 = broadcastOf env.subnet := by
          rw [show broadcastOf env.subnet = IPv4.mk
              ((env.subnet.ip.o1 &&& env.subnet.mask.o1) ||| (env.subnet.mask.o1 ^^^ 255))
              ((env.subnet.ip.o2 &&& env.subnet.mask.o2) ||| (env.subnet.mask.o2 ^^^ 255))
              ((env.subnet.ip.o3 &&& env.subnet.mask.o3) ||| (env.subnet.mask.o3 ^^^ 255))
              ((env.subnet.ip.o4 &&& env.subnet.mask.o4) ||| (env.subnet.mask.o4 ^^^ 255))
              from rfl, IPv4.mk.injEq, xorByte env.subnet.mask.o1 hm1,
            xorByte env.subnet.mask.o2 hm2, xorByte env.subnet.mask.o3 hm3,
            xorByte env.subnet.mask.o4 hm4]
          exact ⟨h1, h2, h3, h4⟩
        exact beq_iff_eq.mpr heq
    have hmi := nibble_iff a hb1
    simp only [emitEntry, hip, hmac]
    by_cases hif : e.interfaceName = env.ifaceName
    · rw [if_neg (by simp [hif])]
      by_cases hfilt :
          (isMulticastMAC mac || isBroadcastMAC mac || isMulticastIPv4 ⟨a, b, c, d4⟩ ||
            isBroadcastIPv4 ⟨a, b, c, d4⟩ env.subnet) = true
      · rw [if_pos hfilt]
        simp only [Bool.or_eq_true] at hfilt
        refine ⟨iff_of_true rfl (Or.inr ?_), fun d hcontra => Option.noConfusion hcontra⟩
        rcases hfilt with ((h | h) | h) | h
        · exact Or.inl ((isMulticastMAC_iff mac).mp h)
        · exact Or.inr (Or.inl ((isBroadcastMAC_iff mac).mp h))
        · exact Or.inr (Or.inr (Or.inl (hmi.mp h)))
        · exact Or.inr (Or.inr (Or.inr (hbcast.mp h)))
      · rw [if_neg hfilt]
        constructor
        · refine iff_of_false (by simp) ?_
          rintro (h | h | h | h | h)
          · exact h hif
          · refine hfilt ?_
            simp only [Bool.or_eq_true]
            exact Or.inl (Or.inl (Or.inl ((isMulticastMAC_iff mac).mpr h)))
          · refine hfilt ?_
            simp only [Bool.or_eq_true]
            exact Or.inl (Or.inl (Or.inr ((isBroadcastMAC_iff mac).mpr h)))
          · refine hfilt ?_
            simp only [Bool.or_eq_true]
            exact Or.inl (Or.inr (hmi.mpr h))
          · refine hfilt ?_
            simp only [Bool.or_eq_true]
            exact Or.inr (hbcast.mpr h)
        · intro d hd
          have hd' := Option.some.inj hd
          subst hd'
          by_cases hage : e.age > 0 <;>
            simp [NewDevice, Device.setMAC, Device.addSource, Device.setLastSeen, hage]
    · rw [if_pos (by simp [bne_iff_ne]; exact hif)]
      refine ⟨iff_of_true rfl (Or.inl hif), ?_⟩
      intro d hcontra
      exact Option.noConfusion hcontra

/-- Sample environment for the C6 witness: interface eth0 on
192.168.1.0/24 at time 1000. -/
def arpWitnessEnv : ArpEnv :=
  { now := 1000
    ifaceName := "eth0"
    subnet := { ip := ⟨192, 168, 1, 0⟩, mask := ⟨255, 255, 255, 0⟩ } }

/-- Sample ARP entry for the C6 witness: the subnet broadcast
192.168.1.255 with a unicast MAC. -/
def arpWitnessEntry : Entry :=
  { ip := some ⟨192, 168, 1, 255⟩
    mac := some [0, 1, 2, 3, 4, 5]
    age := 0
    interfaceName := "eth0" }

/-- Witness for C6: the subnet-broadcast entry is filtered out. -/
theorem arp_emit_filter_witness :
    emitEntry arpWitnessEnv arpWitnessEntry = none :=
  (arp_emit_filter.2.2 arpWitnessEnv arpWitnessEntry ⟨192, 168, 1, 255⟩ [0, 1, 2, 3, 4, 5]
      rfl rfl (by decide) (by decide) (by decide) (by decide) (by decide)).1.mpr
    (Or.inr (Or.inr (Or.inr (Or.inr (by decide)))))

/-- The position after the first "://" in a URL, the boundary at which
url.Parse begins the authority (host) component; none when the string
has no such separator, in which case url.Parse yields an empty Host and
net.ParseIP of it fails. -/
def afterSchemeSep : List Char → Option (List Char)
  | ':' :: '/' :: '/' :: rest => some rest
  | _ :: rest => afterSchemeSep rest
  | [] => none

/-- The authority component: url.Parse ends the host at the first '/',
'?' or '#'. -/
def authorityOf (rest : List Char) : List Char :=
  rest.takeWhile (fun ch => ch != '/' && ch != '?' && ch != '#')

/-- net.SplitHostPort applied as in ipFromLocation: with exactly one
colon the host is the part before it; otherwise SplitHostPort errors and
the host is kept whole. -/
def stripPort (host : List Char) : List Char :=
  if (host.filter (fun ch => ch == ':')).length = 1 then
    host.takeWhile (fun ch => ch != ':')
  else host

/-- One dotted-quad field for net.ParseIP: 1 to 3 digits, no leading
zero, value at most 255. -/
def parseOctet (p : List Char) : Option Nat :=
  if p = [] then none
  else if p.length > 3 then none
  else if ! p.all Char.isDigit then none
  else if p.length > 1 && p.headD '0' == '0' then none
  else
    let v := p.foldl (fun acc ch => acc * 10 + (ch.toNat - 48)) 0
    if v > 255 then none else some v

/-- net.ParseIP restricted to IPv4 dotted-quad form. -/
def parseIPv4 (s : List Char) : Option IPv4 :=
  match s.splitOn '.' with
  | [p1, p2, p3, p4] =>
      match parseOctet p1, parseOctet p2, parseOctet p3, parseOctet p4 with
      | some a, some b, some c, some d => some ⟨a, b, c, d⟩
      | _, _, _, _ => none
  | _ => none

/-- ipFromLocation from the ssdp scanner: parse the Location as a URL,
take its host, strip a port, parse the IP literal. -/
def ipFromLocation (loc : String) : Option IPv4 :=
  match afterSchemeSep loc.data with
  | none => none
  | some rest => parseIPv4 (stripPort (authorityOf rest))

/-- handlePacket from the ssdp scanner, after header parsing: `src` is
the datagram source IP (none for a nil UDP address), `loc` and `server`
the parsed Location and Server headers.  The non-blocking channel send
is determinised to the Option of the offered Device. -/
def handlePacket (now : Nat) (src : Option IPv4) (loc server : String) : Option Device :=
  let ip :=
    match src with
    | some s => some s
    | none => if loc ≠ "" then ipFromLocation loc else none
  match ip with
  | none => none
  | some ip =>
      let d := NewDevice now (some ip)
      let d := d.setDisplayName server
      let d := d.addSource "ssdp"
      let d := if loc ≠ "" then d.addExtraData "location" loc else d
      let d := if server ≠ "" then d.addExtraData "server" server else d
      some d

theorem handlePacket_some (now : Nat) (src : IPv4) (loc server : String) :
    ∃ d, handlePacket now (some src) loc server = some d ∧
      d.ip = some src ∧ d.displayName = server ∧ d.sources = ["ssdp"] ∧
      (loc ≠ "" → lookupKey "location" d.extraData = some loc) ∧
      (loc = "" → lookupKey "location" d.extraData = none) ∧
      (server ≠ "" → lookupKey "server" d.extraData = some server) ∧
      (server = "" → lookupKey "server" d.extraData = none) := by
  refine ⟨_, rfl, ?_, ?_, ?_, ?_, ?_, ?_, ?_⟩ <;>
    by_cases hl : loc = "" <;> by_cases hs : server = "" <;>
    simp [NewDevice, Device.setDisplayName, Device.addSource, Device.addExtraData, lookupKey,
      hl, hs]

/-- C7: with a datagram source IP the scanner emits exactly one Device
carrying that IP; with no source IP and a non-empty Location it emits
one Device with the IP resolved from the Location host (port stripped)
or nothing when that fails; with neither it emits nothing.  Emitted
devices carry displayName = Server, sources {"ssdp"}, and location /
server extraData entries exactly when those headers are non-empty.
Scenario B, C and D literals included. -/
theorem ssdp_handlePacket_emission :
    (∀ (now : Nat) (src : IPv4) (loc server : String),
      ∃ d, handlePacket now (some src) loc server = some d ∧
        d.ip = some src ∧ d.displayName = server ∧ d.sources = ["ssdp"] ∧
        (loc ≠ "" → lookupKey "location" d.extraData = some loc) ∧
        (loc = "" → lookupKey "location" d.extraData = none) ∧
        (server ≠ "" → lookupKey "server" d.extraData = some server) ∧
        (server = "" → lookupKey "server" d.extraData = none)) ∧
    (∀ (now : Nat) (loc server : String), loc ≠ "" → ipFromLocation loc = none →
      handlePacket now none loc server = none) ∧
    (∀ (now : Nat) (loc server : String) (ip : IPv4), loc ≠ "" → ipFromLocation loc = some ip →
      ∃ d, handlePacket now none loc server = some d ∧ d.ip = some ip ∧
        d.displayName = server ∧ d.sources = ["ssdp"]) ∧
    (∀ (now : Nat) (server : String), handlePacket now none "" server = none) ∧
    (handlePacket 0 (some ⟨10, 0, 0, 2⟩) "http://10.0.0.2:80/device.xml" "test/1.0" =
      some { ip := some ⟨10, 0, 0, 2⟩, mac := "", displayName := "test/1.0", manufacturer := "",
             sources := ["ssdp"], firstSeen := 0, lastSeen := 0,
             extraData := [("location", "http://10.0.0.2:80/device.xml"), ("server", "test/1.0")],
             openPorts := [], lastPortScan := 0 }) ∧
    (ipFromLocation "http://10.0.0.3:80/device.xml" = some ⟨10, 0, 0, 3⟩) ∧
    ((handlePacket 0 none "http://10.0.0.3:80/device.xml" "unit-test").map Device.ip =
      some (some ⟨10, 0, 0, 3⟩)) ∧
    (handlePacket 0 none "" "unit-test" = none) := by
  refine ⟨?_, ?_, ?_, ?_, by decide, by decide, by decide, by decide⟩
  · intro now src loc server
    exact handlePacket_some now src loc server
  · intro now loc server hloc hnone
    simp [handlePacket, hloc, hnone]
  · intro now loc server ip hloc hsome
    have heq : handlePacket now none loc server = handlePacket now (some ip) loc server := by
      simp [handlePacket, hloc, hsome]
    obtain ⟨d, hd, h1, h2, h3, _⟩ := handlePacket_some now ip loc server
    exact ⟨d, heq.trans hd, h1, h2, h3⟩
  · intro now server
    simp [handlePacket]

/-- Witness for C7's conditional parts: the Scenario C Location resolves
to 10.0.0.3 and an unresolvable Location emits nothing. -/
theorem ssdp_handlePacket_emission_witness :
    (∃ d, handlePacket 7 none "http://10.0.0.3:80/device.xml" "unit-test" = some d ∧
      d.ip = some ⟨10, 0, 0, 3⟩ ∧ d.displayName = "unit-test" ∧ d.sources = ["ssdp"]) ∧
    handlePacket 7 none "http://device.example/desc.xml" "srv" = none :=
  ⟨ssdp_handlePacket_emission.2.2.1 7 "http://10.0.0.3:80/device.xml" "unit-test" ⟨10, 0, 0, 3⟩
      (by decide) (by decide),
   ssdp_handlePacket_emission.2.1 7 "http://device.example/desc.xml" "srv" (by decide)
     (by decide)⟩

/-- Result of net.IP.To4 for the sweeper: a 32-bit IPv4 value, or none
for an IPv6 address. -/
structure SweepNet where
  ip : Option Nat
  ones : Nat
deriving Repr, DecidableEq

/-- incrementIP from sweeper.go: byte-wise +1 with carry over the four
octets, i.e. +1 modulo 2^32. -/
def incrementIP (ip : Nat) : Nat := (ip + 1) % 2 ^ 32

/-- The network address subnet.IP.Mask(subnet.Mask): clearing the low
32 - ones bits of an address (AND with the canonical CIDR mask). -/
def netOf (addr ones : Nat) : Nat :=
  addr / 2 ^ (32 - ones) * 2 ^ (32 - ones)

/-- The effective prefix used for the broadcast: subnets larger than /16
are capped at /16. -/
def effectiveOnes (ones : Nat) : Nat :=
  if ones < 16 then 16 else ones

/-- The loop's stopping address: network OR (NOT effectiveMask), i.e.
all capped host bits set. -/
def bcastOf (addr ones : Nat) : Nat :=
  netOf addr ones + (2 ^ (32 - effectiveOnes ones) - 1)

/-- The enumeration loop of generateSubnetIPs: append the current
address unless it equals the skip address, stop at the broadcast,
else increment.  The fuel argument is a termination bound; the caller
passes exactly the loop's trip count. -/
def subnetLoop (skip : Option Nat) (broadcast : Nat) : Nat → Nat → List Nat
  | 0, _ => []
  | fuel + 1, current =>
      (if skip = some current then [] else [current]) ++
        (if current = broadcast then [] else subnetLoop skip broadcast fuel (incrementIP current))

/-- generateSubnetIPs from sweeper.go: empty for a non-IPv4 subnet; else
walk from the network address to the (possibly /16-capped) broadcast,
skipping the local IP. -/
def generateSubnetIPs (subnet : SweepNet) (skip : Option Nat) : List Nat :=
  match subnet.ip with
  | none => []
  | some addr =>
      subnetLoop skip (bcastOf addr subnet.ones)
        (bcastOf addr subnet.ones + 1 - netOf addr subnet.ones) (netOf addr subnet.ones)

theorem subnetLoop_eq (skip : Option Nat) (k : Nat) :
    ∀ current, current + k < 2 ^ 32 →
      subnetLoop skip (current + k) (k + 1) current =
        ((List.range (k + 1)).map (current + ·)).filter (fun x => skip ≠ some x) := by
  induction k with
  | zero =>
      intro current _
      have hb : current = current + 0 := rfl
      show (if skip = some current then [] else [current]) ++
          (if current = current + 0 then [] else
            subnetLoop skip (current + 0) 0 (incrementIP current)) = _
      rw [if_pos hb]
      by_cases hs : skip = some current
      · rw [if_pos hs]
        simp [List.range_succ, List.filter_cons, hs]
      · rw [if_neg hs]
        simp [List.range_succ, List.filter_cons, hs]
  | succ k ih =>
      intro current h
      have hne : current ≠ current + (k + 1) := by omega
      have hinc : incrementIP current = current + 1 := by
        unfold incrementIP
        exact Nat.mod_eq_of_lt (by omega)
      have hrw : current + (k + 1) = (current + 1) + k := by omega
      show (if skip = some current then [] else [current]) ++
          (if current = current + (k + 1) then [] else
            subnetLoop skip (current + (k + 1)) (k + 1) (incrementIP current)) = _
      rw [if_neg hne, hinc, hrw, ih (current + 1) (by omega)]
      have hright :
          (List.range (k + 1 + 1)).map (current + ·) =
            current :: (List.range (k + 1)).map ((current + 1) + ·) := by
        rw [List.range_succ_eq_map, List.map_cons, List.map_map]
        refine congrArg₂ _ (by omega) ?_
        refine List.map_congr_left ?_
        intro i _
        show current + (i + 1) = (current + 1) + i
        omega
      rw [hright, List.filter_cons]
      by_cases hs : skip = some current
      · rw [if_pos hs, List.nil_append]
        simp [hs]
      · rw [if_neg hs, List.singleton_append]
        simp [hs]

theorem pow_ones_mul (ones : Nat) (h : ones ≤ 32) :
    2 ^ ones * 2 ^ (32 - ones) = 2 ^ 32 := by
  rw [← pow_add]
  congr 1
  omega

theorem bcastOf_lt (addr ones : Nat) (h1 : addr < 2 ^ 32) (h2 : ones ≤ 32) :
    netOf addr ones ≤ bcastOf addr ones ∧ bcastOf addr ones < 2 ^ 32 := by
  have hblock : 0 < 2 ^ (32 - ones) := Nat.pos_pow_of_pos _ (by omega)
  have hdiv : addr / 2 ^ (32 - ones) < 2 ^ ones := by
    rw [Nat.div_lt_iff_lt_mul hblock]
    calc addr < 2 ^ 32 := h1
    _ = 2 ^ ones * 2 ^ (32 - ones) := (pow_ones_mul ones h2).symm
  have hmul : (addr / 2 ^ (32 - ones) + 1) * 2 ^ (32 - ones) ≤ 2 ^ 32 := by
    calc (addr / 2 ^ (32 - ones) + 1) * 2 ^ (32 - ones) ≤ 2 ^ ones * 2 ^ (32 - ones) :=
          Nat.mul_le_mul_right _ (by omega)
    _ = 2 ^ 32 := pow_ones_mul ones h2
  have hstep : addr / 2 ^ (32 - ones) * 2 ^ (32 - ones) + 2 ^ (32 - ones) =
      (addr / 2 ^ (32 - ones) + 1) * 2 ^ (32 - ones) := by ring
  have heff : 2 ^ (32 - effectiveOnes ones) ≤ 2 ^ (32 - ones) := by
    apply Nat.pow_le_pow_right (by omega)
    unfold effectiveOnes
    split <;> omega
  have heffpos : 0 < 2 ^ (32 - effectiveOnes ones) := Nat.pos_pow_of_pos _ (by omega)
  unfold bcastOf netOf
  omega

theorem generateSubnetIPs_chr (addr ones : Nat) (skip : Option Nat) (h1 : addr < 2 ^ 32)
    (h2 : ones ≤ 32) :
    generateSubnetIPs ⟨some addr, ones⟩ skip =
      ((List.range (bcastOf addr ones + 1 - netOf addr ones)).map (netOf addr ones + ·)).filter
        (fun x => skip ≠ some x) := by
  obtain ⟨hle, hlt⟩ := bcastOf_lt addr ones h1 h2
  show subnetLoop skip (bcastOf addr ones) (bcastOf addr ones + 1 - netOf addr ones)
      (netOf addr ones) = _
  generalize hn : netOf addr ones = n at *
  generalize hb : bcastOf addr ones = b at *
  obtain ⟨k, rfl⟩ : ∃ k, b = n + k := ⟨b - n, by omega⟩
  rw [show n + k + 1 - n = k + 1 from by omega]
  exact subnetLoop_eq skip k n (by omega)

/-- C3 counterexample: for the /8 subnet 10.0.0.0/8 with local IP
10.1.0.1 (inside the /8 but outside the capped /16 block) the
enumeration yields 65,536 addresses, refuting "at most 65,535 for every
/8 input". -/
theorem generateSubnetIPs_claim_counterexample :
    65535 <
      (generateSubnetIPs ⟨some (10 * 2 ^ 24), 8⟩ (some (10 * 2 ^ 24 + 2 ^ 16 + 1))).length := by
  rw [generateSubnetIPs_chr (10 * 2 ^ 24) 8 (some (10 * 2 ^ 24 + 2 ^ 16 + 1)) (by norm_num)
    (by norm_num)]
  have hnet : netOf (10 * 2 ^ 24) 8 = 10 * 2 ^ 24 := by decide
  have hb : bcastOf (10 * 2 ^ 24) 8 = 10 * 2 ^ 24 + 65535 := by decide
  rw [hnet, hb, show 10 * 2 ^ 24 + 65535 + 1 - 10 * 2 ^ 24 = 65536 from by norm_num]
  rw [List.filter_eq_self.mpr ?_]
  · simp
  · intro x hx
    simp only [List.mem_map, List.mem_range] at hx
    obtain ⟨i, hi, rfl⟩ := hx
    simp only [decide_eq_true_eq]
    intro heq
    have := Option.some.inj heq
    omega

/-- C3 amended: the enumeration returns, in strictly ascending order,
every IPv4 address from the network address to the (possibly
/16-capped) broadcast address inclusive except the local host's own IP;
an IPv6 subnet yields the empty list; and a /8 subnet yields at most
65,536 addresses, at most 65,535 of them when the local IP lies inside
the capped /16 block (the figure the spec states unconditionally). -/
theorem generateSubnetIPs_amended :
    (∀ (ones : Nat) (skip : Option Nat), generateSubnetIPs ⟨none, ones⟩ skip = []) ∧
    (∀ (addr ones : Nat) (skip : Option Nat), addr < 2 ^ 32 → ones ≤ 32 →
      (∀ x, x ∈ generateSubnetIPs ⟨some addr, ones⟩ skip ↔
        (netOf addr ones ≤ x ∧ x ≤ bcastOf addr ones ∧ skip ≠ some x)) ∧
      List.Pairwise (· < ·) (generateSubnetIPs ⟨some addr, ones⟩ skip)) ∧
    (∀ (addr : Nat) (skip : Option Nat), addr < 2 ^ 32 →
      (generateSubnetIPs ⟨some addr, 8⟩ skip).length ≤ 65536 ∧
      (∀ s, skip = some s → netOf addr 8 ≤ s → s ≤ bcastOf addr 8 →
        (generateSubnetIPs ⟨some addr, 8⟩ skip).length ≤ 65535)) := by
  refine ⟨fun ones skip => rfl, ?_, ?_⟩
  · intro addr ones skip h1 h2
    obtain ⟨hle, hlt⟩ := bcastOf_lt addr ones h1 h2
    rw [generateSubnetIPs_chr addr ones skip h1 h2]
    constructor
    · intro x
      simp only [List.mem_filter, List.mem_map, List.mem_range, decide_eq_true_eq]
      constructor
      · rintro ⟨⟨i, hi, rfl⟩, hpred⟩
        exact ⟨by omega, by omega, hpred⟩
      · rintro ⟨hge, hle2, hpred⟩
        exact ⟨⟨x - netOf addr ones, by omega, by omega⟩, hpred⟩
    · refine List.Pairwise.filter _ ?_
      refine List.Pairwise.map _ (fun a b hab => ?_) (List.pairwise_lt_range _)
      omega
  · intro addr skip h1
    have h2 : (8 : Nat) ≤ 32 := by omega
    obtain ⟨hle, hlt⟩ := bcastOf_lt addr 8 h1 h2
    have hcount : bcastOf addr 8 + 1 - netOf addr 8 = 65536 := by
      have heff : bcastOf addr 8 = netOf addr 8 + 65535 := by
        unfold bcastOf effectiveOnes
        norm_num
      omega
    rw [generateSubnetIPs_chr addr 8 skip h1 h2, hcount]
    have hlenmap : ((List.range 65536).map (netOf addr 8 + ·)).length = 65536 := by
      simp
    constructor
    · calc (((List.range 65536).map (netOf addr 8 + ·)).filter
          (fun x => skip ≠ some x)).length ≤
          ((List.range 65536).map (netOf addr 8 + ·)).length := List.length_filter_le _ _
      _ = 65536 := hlenmap
    · intro s hskip hges hles
      have hmem : s ∈ (List.range 65536).map (netOf addr 8 + ·) := by
        simp only [List.mem_map, List.mem_range]
        have heff : bcastOf addr 8 = netOf addr 8 + 65535 := by
          unfold bcastOf effectiveOnes
          norm_num
        exact ⟨s - netOf addr 8, by omega, by omega⟩
      have hdrop : (((List.range 65536).map (netOf addr 8 + ·)).filter
          (fun x => skip ≠ some x)).length <
          ((List.range 65536).map (netOf addr 8 + ·)).length := by
        rw [List.length_filter_lt_length_iff_exists]
        refine ⟨s, hmem, ?_⟩
        simp [hskip]
      omega

/-- Witness for C3's amended theorem: a capped /8 sweep with the local
IP inside the block has at most 65,535 targets, and the Scenario E /30
subnet 192.168.1.0/30 with local IP 192.168.1.1 enumerates exactly
[.0, .2, .3]. -/
theorem generateSubnetIPs_amended_witness :
    (generateSubnetIPs ⟨some (10 * 2 ^ 24), 8⟩ (some (10 * 2 ^ 24 + 1))).length ≤ 65535 ∧
    generateSubnetIPs ⟨some 3232235776, 30⟩ (some 3232235777) =
      [3232235776, 3232235778, 3232235779] :=
  ⟨(generateSubnetIPs_amended.2.2 (10 * 2 ^ 24) (some (10 * 2 ^ 24 + 1)) (by norm_num)).2
      (10 * 2 ^ 24 + 1) rfl (by decide) (by decide),
   by decide⟩

/-- ScanStats from the events file. -/
structure ScanStats where
  deviceCount : Nat
  duration : Nat
deriving Repr, DecidableEq

/-- Event: the tagged union of engine notifications (the Go struct with
a Type field and one payload per variant). -/
inductive Event where
  | engineStarted
  | engineStopped
  | scanStarted
  | scanCompleted (stats : ScanStats)
  | deviceDiscovered (d : Device)
  | errorEvent (msg : String)
deriving Repr, DecidableEq

/-- net.IP.String() for the engine's merge-map key. -/
def ipv4String (ip : IPv4) : String :=
  toString ip.o1 ++ "." ++ toString ip.o2 ++ "." ++ toString ip.o3 ++ "." ++ toString ip.o4

/-- fillManufacturer from engine.go: fill only when a registry exists,
the manufacturer is empty and a MAC is known, and the lookup hits. -/
def fillManufacturer (reg : Option Registry) (d : Device) : Device :=
  match reg with
  | none => d
  | some r =>
      if d.manufacturer ≠ "" ∨ d.mac = "" then d
      else
        match r.Lookup d.mac.data with
        | (org, true) => { d with manufacturer := org }
        | (_, false) => d

/-- processDevice from engine.go over one channel observation: drop nil
devices, nil IPs and empty keys; merge into an existing entry or insert
a new one (stamping firstSeen when zero); the emitted DeviceDiscovered
event is the Option. -/
def processDevice (reg : Option Registry) (now : Nat) (devices : List (String × Device)) :
    Option Device → List (String × Device) × Option Event
  | none => (devices, none)
  | some d =>
      match d.ip with
      | none => (devices, none)
      | some ip =>
          let key := ipv4String ip
          if key = "" then (devices, none)
          else
            match lookupKey key devices with
            | some existing =>
                let m := fillManufacturer reg (existing.merge d)
                (updateKey key m devices, some (.deviceDiscovered m))
            | none =>
                let d1 := if d.firstSeen = 0 then { d with firstSeen := now } else d
                let d2 := fillManufacturer reg d1
                (devices ++ [(key, d2)], some (.deviceDiscovered d2))

/-- The fan-in read loop of performScan: fold processDevice over the
observations in arrival order, collecting the emitted events. -/
def processList (reg : Option Registry) (now : Nat) :
    List (String × Device) → List (Option Device) → List (String × Device) × List Event
  | st, [] => (st, [])
  | st, d :: ds =>
      let step := processDevice reg now st d
      let rest := processList reg now step.1 ds
      (rest.1, step.2.toList ++ rest.2)

/-- One scanner's contribution to a scan: the devices it sent on the
fan-in channel and its returned error. -/
structure ScannerRun where
  devices : List (Option Device)
  err : Option String
deriving Repr, DecidableEq

/-- performScan from engine.go, determinised: scanner goroutine
interleaving is fixed to scanner order, events are returned as a list,
and the return value is (events, device slice, returned error).  The
final statement `return mapToSlicePtr(devices), nil` is the last
component. -/
def performScan (reg : Option Registry) (now dur : Nat) (runs : List ScannerRun) :
    List Event × List Device × Option String :=
  let obs := (runs.map (fun r => r.devices)).flatten
  let errEvents := runs.filterMap
    (fun r => r.err.map (fun m => Event.errorEvent ("scanner failed: " ++ m)))
  let res := processList reg now [] obs
  let stats : ScanStats := { deviceCount := res.1.length, duration := dur }
  (Event.scanStarted :: errEvents ++ res.2 ++ [Event.scanCompleted stats],
   res.1.map Prod.snd, none)

/-- Engine.Scan from engine.go: applies the scan timeout, optionally
starts the sweeper, and returns performScan's result unchanged (the
timeout and sweeper are outside the deterministic embedding). -/
def engineScan (reg : Option Registry) (now dur : Nat) (runs : List ScannerRun) :
    List Device × Option String :=
  (performScan reg now dur runs).2

/-- C10: performScan and Engine.Scan return a nil error for every
registry, clock and set of scanner outcomes; a scanner's failure
surfaces only as an Error event ("scanner failed: " ++ message) on the
event list. -/
theorem scan_error_nil :
    (∀ (reg : Option Registry) (now dur : Nat) (runs : List ScannerRun),
      (performScan reg now dur runs).2.2 = none) ∧
    (∀ (reg : Option Registry) (now dur : Nat) (runs : List ScannerRun),
      (engineScan reg now dur runs).2 = none) ∧
    (∀ (reg : Option Registry) (now dur : Nat) (runs : List ScannerRun) (r : ScannerRun)
      (m : String), r ∈ runs → r.err = some m →
      Event.errorEvent ("scanner failed: " ++ m) ∈ (performScan reg now dur runs).1) := by
  refine ⟨fun reg now dur runs => rfl, fun reg now dur runs => rfl, ?_⟩
  intro reg now dur runs r m hr herr
  show Event.errorEvent ("scanner failed: " ++ m) ∈ Event.scanStarted :: _
  refine List.mem_cons_of_mem _ (List.mem_append_left _ (List.mem_append_left _ ?_))
  simp only [List.mem_filterMap]
  exact ⟨r, hr, by rw [herr]; rfl⟩

/-- Witness for C10's error-event part at one failing scanner. -/
theorem scan_error_nil_witness :
    Event.errorEvent ("scanner failed: " ++ "boom") ∈
      (performScan none 0 0 [{ devices := [], err := some "boom" }]).1 :=
  scan_error_nil.2.2 none 0 0 [{ devices := [], err := some "boom" }]
    { devices := [], err := some "boom" } "boom" (List.mem_singleton.mpr rfl) rfl

end WhosThere
